import Mathlib

set_option autoImplicit false

/-!
# flamego/captcha: a shallow embedding and its verified properties

The Go packages `captcha` (src/captcha.go) and `captchautil`
(src/internal/captchautil/{captcha,fonts,random}.go) are embedded as pure
functions over explicit state.

* Go `int` values are `Int`; a canvas that exists in memory has
  `4 * width * height` below `2 ^ 63` (image.NewNRGBA refuses anything else),
  so no product of canvas dimensions wraps.
* Go's integer division truncates toward zero: `Int.tdiv`, `Int.tmod`.
* A Go call either returns normally, returns a non-nil `error`, or panics:
  the three constructors of `Res`.
* The random sources (`r`, the top-level math/rand source and
  crypto/rand.Reader) are streams of raw draws with a read position; every
  bounded draw of math/rand reduces the raw value into its range, so every
  value the library can return is the image of some stream.
* crypto/rand.Int redraws until the value read is below its bound, so the
  number of reads depends on what is read: the functions built on it take a
  fuel argument, the largest number of redraws tried, and `none` says that
  the call has not returned within that many.
* `make` and image.NewNRGBA refuse a buffer beyond the limits of the runtime
  (`maxAlloc`, and the range of `int`); running out of memory below those
  limits is outside the model.
-/

namespace captchautil

/-- The three ways a Go call ends: a normal return, a returned `error`
(kept as its message), or a run-time panic. -/
inductive Res (α : Type) where
  | ok (a : α)
  | err (e : String)
  | panic (msg : String)
  deriving Repr, DecidableEq

/-- The value of a normal return, if the call returned normally. -/
def Res.value {α : Type} : Res α → Option α
  | .ok a => some a
  | .err _ => none
  | .panic _ => none

/-- A math/rand generator: the stream of raw values it will produce and the
number of values consumed so far. -/
structure Rng where
  draws : Nat → Nat
  pos : Nat

/-- The crypto/rand.Reader: the k-th read either fails with an error or
yields raw entropy. -/
structure Reader where
  read : Nat → Except String Nat
  pos : Nat

/-- The method `(*rand.Rand).Intn`: panics when `n <= 0`, otherwise returns a
value in `[0, n)` and advances the generator. -/
def Rng.Intn (g : Rng) (n : Int) : Res Int × Rng :=
  if n ≤ 0 then (.panic "invalid argument to Intn", g)
  else (.ok ((g.draws g.pos : Int) % n), { g with pos := g.pos + 1 })

/-- The function `rand.Int63n`: panics when `n <= 0`, otherwise returns a
value in `[0, n)` and advances the generator. -/
def Rng.Int63n (g : Rng) (n : Int) : Res Int × Rng :=
  if n ≤ 0 then (.panic "invalid argument to Int63n", g)
  else (.ok ((g.draws g.pos : Int) % n), { g with pos := g.pos + 1 })

/-- The method `(*rand.Rand).Int`: a non-negative raw value. -/
def Rng.randInt (g : Rng) : Int × Rng :=
  ((g.draws g.pos : Int), { g with pos := g.pos + 1 })

/-- The constant `maxAlloc` of the Go runtime on 64-bit platforms with 48
address bits (Linux on amd64 and arm64), `2 ^ 48`: `make` panics for a byte
slice longer than this. -/
def maxAlloc : Int := 281474976710656

/-- The largest value of a Go `int`, `2 ^ 63 - 1`. -/
def maxInt : Int := 9223372036854775807

/-- The halving loop behind `bitLen`, with at most `fuel` halvings. -/
def bitLenAux : Nat → Nat → Nat
  | 0, _ => 0
  | fuel + 1, n => if n = 0 then 0 else bitLenAux fuel (n / 2) + 1

/-- The method `(*big.Int).BitLen` of a non-negative value. -/
def bitLen (n : Nat) : Nat :=
  bitLenAux n n

/-- The call `io.ReadFull(rand, bytes)` for a buffer of `k` bytes: the next
`k` bytes of the reader, or the error of the first read that fails. -/
def readFull : Nat → Reader → Res (List Nat) × Reader
  | 0, rd => (.ok [], rd)
  | k + 1, rd =>
    match rd.read rd.pos with
    | .error e => (.err e, { rd with pos := rd.pos + 1 })
    | .ok v =>
      match readFull k { rd with pos := rd.pos + 1 } with
      | (.ok bytes, rd1) => (.ok (v % 256 :: bytes), rd1)
      | (.err e, rd1) => (.err e, rd1)
      | (.panic msg, rd1) => (.panic msg, rd1)

/-- The statement `bytes[0] &= uint8(int(1<<b) - 1)` of `crypto/rand.Int`. -/
def maskFirst (b : Nat) : List Nat → List Nat
  | [] => []
  | b0 :: rest => (b0 % 2 ^ b) :: rest

/-- The method `(*big.Int).SetBytes`: the big-endian value of the bytes. -/
def setBytes (bytes : List Nat) : Nat :=
  bytes.foldl (fun acc byte => acc * 256 + byte) 0

/-- The loop `for { ... }` of `crypto/rand.Int`: read `k` bytes, clear the
high bits of the first, and return the value when it is below `max`,
otherwise draw again; `fuel` bounds the number of draws tried. -/
def cryptoIntLoop (max : Int) (k b : Nat) : Nat → Reader → Option (Res Int × Reader)
  | 0, _ => none
  | fuel + 1, rd =>
    match readFull k rd with
    | (.err e, rd1) => some (.err e, rd1)
    | (.panic msg, rd1) => some (.panic msg, rd1)
    | (.ok bytes, rd1) =>
      if (setBytes (maskFirst b bytes) : Int) < max then
        some (.ok (setBytes (maskFirst b bytes) : Int), rd1)
      else cryptoIntLoop max k b fuel rd1

/-- The function `crypto/rand.Int(rand.Reader, max)`: panics when `max <= 0`;
otherwise `bitLen` is the bit length of `max - 1`, `k` the number of bytes
read per draw and `b` the number of bits kept of the first byte. -/
def cryptoInt (fuel : Nat) (rd : Reader) (max : Int) : Option (Res Int × Reader) :=
  if max ≤ 0 then some (.panic "crypto/rand: argument to Int is <= 0", rd)
  else if bitLen (max - 1).toNat = 0 then some (.ok 0, rd)
  else
    cryptoIntLoop max ((bitLen (max - 1).toNat + 7) / 8)
      (if bitLen (max - 1).toNat % 8 = 0 then 8 else bitLen (max - 1).toNat % 8) fuel rd

/-- The constant `alphanum` of `RandomText`. -/
def alphanum : String := "0123456789abcdefghijklmnopqrstuvwxyzABCDEFGHIJKLMNOPQRSTUVWXYZ"

/-- The closure `randomInt` of `RandomText`: `int(r.Int64())` of the drawn
big integer, or the error. -/
def randomInt (fuel : Nat) (max : Int) (rd : Reader) : Option (Res Int × Reader) :=
  cryptoInt fuel rd max

/-- Indexing a Go string by an `int`: a panic when the index is out of range. -/
def strIndex (s : List Char) (index : Int) : Res Char :=
  if index < 0 then .panic "index out of range"
  else
    match s[index.toNat]? with
    | some c => .ok c
    | none => .panic "index out of range"

/-- The loop `for i := 0; i < n; i++` of `RandomText`, with `k` iterations
left to run from index `i`; `buffer[i] = alphanum[index]`. -/
def randomTextLoop (fuel : Nat) :
    Nat → Nat → List Char → Reader → Option (Res (List Char) × Reader)
  | 0, _, buffer, rd => some (.ok buffer, rd)
  | k + 1, i, buffer, rd =>
    match randomInt fuel (alphanum.length : Int) rd with
    | none => none
    | some (.err e, rd1) => some (.err e, rd1)
    | some (.panic m, rd1) => some (.panic m, rd1)
    | some (.ok index, rd1) =>
      match strIndex alphanum.toList index with
      | .ok c => randomTextLoop fuel k (i + 1) (buffer.set i c) rd1
      | .err e => some (.err e, rd1)
      | .panic m => some (.panic m, rd1)

/-- The function `RandomText(n int) (string, error)`. `make([]byte, n)` panics
for a negative `n` and for an `n` beyond `maxAlloc`; the buffer starts as `n`
zero bytes. -/
def RandomText (fuel : Nat) (n : Int) (rd : Reader) : Option (Res String × Reader) :=
  if n < 0 ∨ n > maxAlloc then some (.panic "runtime error: makeslice: len out of range", rd)
  else
    match randomTextLoop fuel n.toNat 0 (List.replicate n.toNat (Char.ofNat 0)) rd with
    | none => none
    | some (.ok buffer, rd1) => some (.ok (String.mk buffer), rd1)
    | some (.err e, rd1) => some (.err e, rd1)
    | some (.panic m, rd1) => some (.panic m, rd1)

/-- Every draw from the entropy source succeeds: from the position of the
reader on, every read returns a byte, and after every position comes a byte
whose low six bits are below 62, so that every redraw loop of
`crypto/rand.Int(rand.Reader, 62)` ends. -/
def EveryDrawSucceeds (rd : Reader) : Prop :=
  ∀ p, rd.pos ≤ p →
    (∃ v, rd.read p = .ok v)
    ∧ ∃ q, p ≤ q ∧ ∃ v, rd.read q = .ok v ∧ v % 256 % 64 < 62

/-! ### Package-level state and sequencing -/

/-- Sequencing of two Go statements over a state `σ`: the second runs only
when the first returned normally; an error return or a panic ends the
function with the state reached so far. -/
def andThen {σ α β : Type} (m : Res α × σ) (f : α → σ → Res β × σ) : Res β × σ :=
  match m with
  | (.ok a, s) => f a s
  | (.err e, s) => (.err e, s)
  | (.panic msg, s) => (.panic msg, s)

/-- A parsed font, the referent of a `*truetype.Font`. -/
structure Font where
  data : List Nat
  deriving Repr, DecidableEq

/-- The package variables of fonts.go: `fontFamilyNames`, `fontFamilies`,
`fontFamilyOnce` (its done flag) and `fontFamilyErr`. The auxiliary counter
`loads` records how many times the function passed to `fontFamilyOnce.Do`
has run. -/
structure FontState where
  fontFamilyNames : List String
  fontFamilies : List (String × Font)
  onceDone : Bool
  fontFamilyErr : Option String
  loads : Nat
  deriving Repr, DecidableEq

/-- The state of the package at program start: the zero values of the
package variables of fonts.go. -/
def FontState.zero : FontState :=
  { fontFamilyNames := [], fontFamilies := [], onceDone := false,
    fontFamilyErr := none, loads := 0 }

/-- The mutable state the package reads and writes: the generator `r` of
captcha.go, the top-level math/rand source used by `Curve`, the
crypto/rand.Reader and the font catalogue. -/
structure World where
  r : Rng
  global : Rng
  reader : Reader
  fonts : FontState

/-- The call `r.Intn(n)` on the package generator `r`. -/
def intn (n : Int) (w : World) : Res Int × World :=
  ((w.r.Intn n).1, { w with r := (w.r.Intn n).2 })

/-- The call `rand.Int63n(n)` on the top-level source. -/
def int63n (n : Int) (w : World) : Res Int × World :=
  ((w.global.Int63n n).1, { w with global := (w.global.Int63n n).2 })

/-- The call `rand.Int()` on the top-level source. -/
def globalInt (w : World) : Res Int × World :=
  (.ok w.global.randInt.1, { w with global := w.global.randInt.2 })

/-- The call `rand.Float64()` on the top-level source: a multiple of
`2 ^ (-53)` in `[0, 1)`. -/
def float64 (w : World) : Res ℚ × World :=
  (.ok (((w.global.draws w.global.pos % 2 ^ 53 : Nat) : ℚ) / 2 ^ 53),
    { w with global := { w.global with pos := w.global.pos + 1 } })

/-! ### Colours (image/color) -/

/-- The conversion `uint8(x)` of a Go `int`: reduction modulo 256. -/
def toUint8 (x : Int) : Fin 256 :=
  ⟨(x % 256).toNat, by omega⟩

/-- The type `color.RGBA`: alpha-premultiplied 8-bit channels. -/
structure RGBA where
  R : Fin 256
  G : Fin 256
  B : Fin 256
  A : Fin 256
  deriving Repr, DecidableEq

/-- The type `color.NRGBA`: non-alpha-premultiplied 8-bit channels, the pixel
format of the canvas (`*image.NRGBA`). -/
structure NRGBA where
  R : Fin 256
  G : Fin 256
  B : Fin 256
  A : Fin 256
  deriving Repr, DecidableEq

/-- The method `color.RGBA.RGBA()`: the 16-bit alpha-premultiplied channels,
each byte `v` widened to `v * 0x101`. -/
def RGBA.channels16 (c : RGBA) : Nat × Nat × Nat × Nat :=
  (c.R.val * 0x101, c.G.val * 0x101, c.B.val * 0x101, c.A.val * 0x101)

/-- The method `color.NRGBA.RGBA()`: the 16-bit alpha-premultiplied channels
of a non-premultiplied colour, `v * 0x101 * (a * 0x101) / 0xffff`. -/
def NRGBA.channels16 (c : NRGBA) : Nat × Nat × Nat × Nat :=
  (c.R.val * 0x101 * (c.A.val * 0x101) / 0xffff,
   c.G.val * 0x101 * (c.A.val * 0x101) / 0xffff,
   c.B.val * 0x101 * (c.A.val * 0x101) / 0xffff,
   c.A.val * 0x101)

/-- The conversion `color.NRGBAModel.Convert` applied to a `color.RGBA`
(function `nrgbaModel` of image/color): an opaque colour keeps its bytes, a
fully transparent one becomes zero, any other one is divided by its alpha. -/
def nrgbaModel (c : RGBA) : NRGBA :=
  let (r, g, b, a) := c.channels16
  if a = 0xffff then
    ⟨toUint8 (r >>> 8 : Nat), toUint8 (g >>> 8 : Nat), toUint8 (b >>> 8 : Nat), 0xff⟩
  else if a = 0 then ⟨0, 0, 0, 0⟩
  else
    ⟨toUint8 ((r * 0xffff / a) >>> 8 : Nat), toUint8 ((g * 0xffff / a) >>> 8 : Nat),
     toUint8 ((b * 0xffff / a) >>> 8 : Nat), toUint8 (a >>> 8 : Nat)⟩

/-- The pixel written by `(*image.NRGBA).SetRGBA64` for the colour
`(&image.Uniform{C: c}).RGBA64At(x, y)`: the path `draw.Draw` takes for a
uniform source over an NRGBA destination. It differs from `nrgbaModel` only
for alpha 0. -/
def uniformPixel (c : RGBA) : NRGBA :=
  let (r, g, b, a) := c.channels16
  if a ≠ 0 ∧ a ≠ 0xffff then
    ⟨toUint8 ((r * 0xffff / a) >>> 8 : Nat), toUint8 ((g * 0xffff / a) >>> 8 : Nat),
     toUint8 ((b * 0xffff / a) >>> 8 : Nat), toUint8 (a >>> 8 : Nat)⟩
  else
    ⟨toUint8 (r >>> 8 : Nat), toUint8 (g >>> 8 : Nat), toUint8 (b >>> 8 : Nat),
     toUint8 (a >>> 8 : Nat)⟩

/-- A pixel holds the colour `c` exactly: the same four bytes. -/
def NRGBA.sameBytes (p : NRGBA) (c : RGBA) : Prop :=
  p.R = c.R ∧ p.G = c.G ∧ p.B = c.B ∧ p.A = c.A

instance (p : NRGBA) (c : RGBA) : Decidable (p.sameBytes c) := by
  unfold NRGBA.sameBytes; infer_instance

/-! ### The canvas (image.NRGBA and the struct Image) -/

/-- The type `image.Rectangle`: `Min` inclusive, `Max` exclusive. -/
structure Rectangle where
  minX : Int
  minY : Int
  maxX : Int
  maxY : Int
  deriving Repr, DecidableEq

/-- The function `image.Rect(x0, y0, x1, y1)`: the coordinates are swapped
where needed so that the rectangle is well formed. -/
def Rect (x0 y0 x1 y1 : Int) : Rectangle :=
  let (x0, x1) := if x0 > x1 then (x1, x0) else (x0, x1)
  let (y0, y1) := if y0 > y1 then (y1, y0) else (y0, y1)
  ⟨x0, y0, x1, y1⟩

/-- The test `image.Point{x, y}.In(r)`. -/
def Rectangle.contains (r : Rectangle) (x y : Int) : Bool :=
  decide (r.minX ≤ x) && decide (x < r.maxX) && decide (r.minY ≤ y) && decide (y < r.maxY)

/-- The type `image.NRGBA`: the pixel store, addressed by coordinates, and
the bounds. -/
structure NRGBAImage where
  pix : Int → Int → NRGBA
  rect : Rectangle

/-- The method `(*image.NRGBA).NRGBAAt`: the stored pixel inside the bounds,
the zero colour outside. -/
def NRGBAImage.At (p : NRGBAImage) (x y : Int) : NRGBA :=
  if p.rect.contains x y then p.pix x y else ⟨0, 0, 0, 0⟩

/-- The method `(*image.NRGBA).Set(x, y, c)` for a `color.RGBA` argument:
nothing outside the bounds, otherwise the pixel becomes
`color.NRGBAModel.Convert(c)`. -/
def NRGBAImage.Set (p : NRGBAImage) (x y : Int) (c : RGBA) : NRGBAImage :=
  if p.rect.contains x y then
    { p with pix := fun i j => if i = x ∧ j = y then nrgbaModel c else p.pix i j }
  else p

/-- The image `image.NewNRGBA(r)` returns once its buffer is allocated:
every pixel zero. -/
def zeroNRGBA (r : Rectangle) : NRGBAImage :=
  { pix := fun _ _ => ⟨0, 0, 0, 0⟩, rect := r }

/-- The function `image.NewNRGBA(r)`. Its `pixelBufferLength(4, r, "NRGBA")`
panics when a side is negative or when `4 * Dx` or `4 * Dx * Dy` does not fit
(`mul3NonNeg` returns -1: `4 * Dx >= 2 ^ 64`, or the product is beyond the
largest `int`), and `make([]uint8, 4 * Dx * Dy)` panics beyond `maxAlloc`. -/
def NewNRGBA (r : Rectangle) : Res NRGBAImage :=
  if r.maxX - r.minX < 0 ∨ r.maxY - r.minY < 0
      ∨ 4 * (r.maxX - r.minX) ≥ 18446744073709551616
      ∨ 4 * (r.maxX - r.minX) * (r.maxY - r.minY) > maxInt then
    .panic "image: NewNRGBA Rectangle has huge or negative dimensions"
  else if 4 * (r.maxX - r.minX) * (r.maxY - r.minY) > maxAlloc then
    .panic "runtime error: makeslice: len out of range"
  else .ok (zeroNRGBA r)

/-- The call `draw.Draw(dst, dst.Bounds(), &image.Uniform{C: c}, image.Point{}, draw.Src)`:
every pixel inside the bounds is overwritten by the uniform colour. -/
def drawUniform (dst : NRGBAImage) (c : RGBA) : NRGBAImage :=
  { dst with pix := fun i j => if dst.rect.contains i j then uniformPixel c else dst.pix i j }

/-- The struct `Image`; `dpi` holds the integer the `float64` was converted
from. -/
structure Image where
  width : Int
  height : Int
  dpi : Int
  nrgba : NRGBAImage

/-- The canvas is `W x H`: the fields say so and the pixel store has the
bounds `(0, 0)-(W, H)`. -/
def Image.IsCanvas (img : Image) (W H : Int) : Prop :=
  img.width = W ∧ img.height = H ∧ img.nrgba.rect = ⟨0, 0, W, H⟩

/-- The type `Option`, a `func(*Image) error`: it may change the canvas and
the package state `σ`, and returns an error, or panics. -/
abbrev ImageOption (σ : Type) := Image → σ → Res Image × σ

/-- The canvas `CreateImage` builds before it applies any option, once
`image.NewNRGBA` has allocated the buffer. -/
def newImage (width height dpi : Int) (bgColor : RGBA) : Image :=
  { height := height, width := width, dpi := dpi,
    nrgba := drawUniform (zeroNRGBA (Rect 0 0 width height)) bgColor }

/-- The loop `for _, opt := range opts` of `CreateImage`. -/
def applyOptions {σ : Type} : List (ImageOption σ) → Image → σ → Res Image × σ
  | [], img, s => (.ok img, s)
  | opt :: rest, img, s =>
    match opt img s with
    | (.ok img1, s1) => applyOptions rest img1 s1
    | (.err e, s1) => (.err e, s1)
    | (.panic msg, s1) => (.panic msg, s1)

/-- The function `CreateImage(width, height, dpi, bgColor, opts...)`; the
result `.err e` is the Go return `(nil, err)`, and a panic of
`image.NewNRGBA` ends the call before any option runs. -/
def CreateImage {σ : Type} (width height dpi : Int) (bgColor : RGBA)
    (opts : List (ImageOption σ)) (s : σ) : Res Image × σ :=
  match NewNRGBA (Rect 0 0 width height) with
  | .ok nrgba =>
    applyOptions opts
      { height := height, width := width, dpi := dpi, nrgba := drawUniform nrgba bgColor } s
  | .err e => (.err e, s)
  | .panic msg => (.panic msg, s)

/-- A loop `for i := start; ...; i++` that runs `k` times over a value that
cannot fail. -/
def forRange {α : Type} (body : Int → α → α) : Nat → Int → α → α
  | 0, _, a => a
  | k + 1, i, a => forRange body k (i + 1) (body i a)

/-- The function `Border(color)`. -/
def Border {σ : Type} (color : RGBA) : ImageOption σ := fun img s =>
  let nrgba := forRange (fun x p => (p.Set x 0 color).Set x (img.height - 1) color)
    img.width.toNat 0 img.nrgba
  let nrgba := forRange (fun y p => (p.Set 0 y color).Set (img.width - 1) y color)
    img.height.toNat 0 nrgba
  (.ok { img with nrgba := nrgba }, s)

/-! ### Colours drawn at random (random.go) -/

/-- The function `randomColor()`. -/
def randomColor (w : World) : Res RGBA × World :=
  andThen (intn 255 w) fun red w1 =>
  andThen (intn 255 w1) fun green w2 =>
  let blue : Int := if red + green ≤ 400 then 400 - green - red else 0
  let blue : Int := if blue > 255 then 255 else blue
  (.ok ⟨toUint8 red, toUint8 green, toUint8 blue, toUint8 255⟩, w2)

/-- The expression `math.Abs(math.Min(float64(c)-increase, 255))` of
`randomDeepColor`. Every value involved is an integer of magnitude below
`2 ^ 53`, so the `float64` arithmetic is exact and is done here in `Int`. -/
def deepChannel (c : Fin 256) (increase : Int) : Int :=
  |min ((c.val : Int) - increase) 255|

/-- The conversion `uint8(x)` of a `float64` holding the integer `v`: the
value itself when it fits; otherwise the Go specification leaves the result
to the implementation, here `impl`. -/
def uint8OfFloat (impl : Int → Fin 256) (v : Int) : Fin 256 :=
  if 0 ≤ v ∧ v ≤ 255 then toUint8 v else impl v

/-- The three `float64` values `red`, `green`, `blue` that `randomDeepColor`
computes before it converts them to `uint8`. -/
def randomDeepValues (w : World) : Res (Int × Int × Int) × World :=
  andThen (randomColor w) fun randColor w1 =>
  andThen (intn 255 w1) fun k w2 =>
  let increase : Int := 30 + k
  (.ok (deepChannel randColor.R increase, deepChannel randColor.G increase,
        deepChannel randColor.B increase), w2)

/-- The function `randomDeepColor()`. -/
def randomDeepColor (impl : Int → Fin 256) (w : World) : Res RGBA × World :=
  andThen (randomDeepValues w) fun v w1 =>
  (.ok ⟨uint8OfFloat impl v.1, uint8OfFloat impl v.2.1, uint8OfFloat impl v.2.2,
        toUint8 255⟩, w1)

/-! ### Noise -/

/-- The constant `ComplexityLow`. -/
def ComplexityLow : Int := 0

/-- The constant `ComplexityMedium`. -/
def ComplexityMedium : Int := 1

/-- The constant `ComplexityHigh`. -/
def ComplexityHigh : Int := 2

/-- The variable `density` of `Noise` after the `if` chain. -/
def noiseDensity (complex : Int) : Int :=
  if complex = ComplexityLow then 28
  else if complex = ComplexityMedium then 18
  else if complex = ComplexityHigh then 8
  else 18

/-- The body of the loop of `Noise`. -/
def noiseBody (maxSize : Int) (img : Image) (w : World) : Res Image × World :=
  andThen (intn img.width w) fun rw w1 =>
  andThen (intn img.height w1) fun rh w2 =>
  andThen (randomColor w2) fun c1 w3 =>
  let img1 : Image := { img with nrgba := img.nrgba.Set rw rh c1 }
  andThen (intn maxSize w3) fun size w4 =>
  if size.tmod 3 = 0 then
    andThen (randomColor w4) fun c2 w5 =>
    (.ok { img1 with nrgba := img1.nrgba.Set (rw + 1) (rh + 1) c2 }, w5)
  else (.ok img1, w4)

/-- The loop `for i := 0; i < maxSize; i++` of `Noise` with `k` iterations
left; the counter `done` is the number of iterations that have run. -/
def noiseLoop (maxSize : Int) : Nat → Image → Nat → World → Res (Image × Nat) × World
  | 0, img, done, w => (.ok (img, done), w)
  | k + 1, img, done, w =>
    andThen (noiseBody maxSize img w) fun img1 w1 => noiseLoop maxSize k img1 (done + 1) w1

/-- The closure returned by `Noise(complex)`, together with the number of
loop iterations it ran. -/
def noiseRun (complex : Int) (img : Image) (w : World) : Res (Image × Nat) × World :=
  let density := noiseDensity complex
  let maxSize := (img.height * img.width).tdiv density
  noiseLoop maxSize maxSize.toNat img 0 w

/-- The function `Noise(complex)`. -/
def Noise (complex : Int) : ImageOption World := fun img w =>
  andThen (noiseRun complex img w) fun p w1 => (.ok p.1, w1)

/-- The positions inside the bounds of `a` at which the pixel of `b` differs
from the pixel of `a`. -/
def changedPixels (a b : NRGBAImage) : Finset (Int × Int) :=
  ((Finset.Ico a.rect.minX a.rect.maxX) ×ˢ (Finset.Ico a.rect.minY a.rect.maxY)).filter
    (fun p => b.pix p.1 p.2 ≠ a.pix p.1 p.2)

/-- Specification of a bounded draw: the value in `[0, n)` the generator
yields for a positive bound, and the generator one draw further. -/
def specDraw (n : Int) (g : Rng) : Int × Rng :=
  ((g.draws g.pos : Int) % n, { g with pos := g.pos + 1 })

/-- Specification of RandomColor, in the words of the spec: R and G are drawn
in `[0, 255)`; if R + G <= 400 then B = min(400 - R - G, 255), else B = 0;
A = 255. -/
def specRandomColor (g : Rng) : RGBA × Rng :=
  let red := (specDraw 255 g).1
  let green := (specDraw 255 (specDraw 255 g).2).1
  let blue : Int := if red + green ≤ 400 then min (400 - red - green) 255 else 0
  (⟨toUint8 red, toUint8 green, toUint8 blue, 255⟩, (specDraw 255 (specDraw 255 g).2).2)

/-- Specification of one iteration of Noise, in the words of the spec: pick
a random pixel `(x, y)` and paint it a random colour; draw `size` below
`count`, and when `size % 3 == 0` also paint the diagonally adjacent pixel
`(x + 1, y + 1)` a second random colour. The state is the canvas and the
generator. -/
def specNoiseStep (count : Int) (s : Image × Rng) : Image × Rng :=
  let x := (specDraw s.1.width s.2).1
  let g1 := (specDraw s.1.width s.2).2
  let y := (specDraw s.1.height g1).1
  let g2 := (specDraw s.1.height g1).2
  let c := (specRandomColor g2).1
  let g3 := (specRandomColor g2).2
  let size := (specDraw count g3).1
  let g4 := (specDraw count g3).2
  if size % 3 = 0 then
    ({ s.1 with nrgba := (s.1.nrgba.Set x y c).Set (x + 1) (y + 1) (specRandomColor g4).1 },
      (specRandomColor g4).2)
  else ({ s.1 with nrgba := s.1.nrgba.Set x y c }, g4)

/-- Specification of Noise for a density: `count = (W * H) / density`
iterations of `specNoiseStep`, one after the other. -/
def specNoise (density : Int) (img : Image) (g : Rng) : Image × Rng :=
  (specNoiseStep ((img.width * img.height) / density))^[((img.width * img.height)
    / density).toNat] (img, g)

/-! ### Curve -/

/-- The conversion `int(x)` of a `float64`, on the exact value: truncation
toward zero. -/
def truncQ (q : ℚ) : Int :=
  if 0 ≤ q then ⌊q⌋ else ⌈q⌉

/-- The closure `random(min, max)` of `Curve`. -/
def random (min max : Int) (w : World) : Res ℚ × World :=
  andThen (float64 w) fun decimal w1 =>
  if max ≤ 0 then
    andThen (int63n ((min * -1) - (max * -1)) w1) fun v w2 =>
    (.ok ((((v + max * -1 : Int) : ℚ) + decimal) * -1), w2)
  else if min < 0 ∧ max > 0 then
    andThen (globalInt w1) fun coin w2 =>
    if coin.tmod 2 = 0 then
      andThen (int63n max w2) fun v w3 => (.ok ((v : ℚ) + decimal), w3)
    else
      andThen (int63n (min * -1) w2) fun v w3 => (.ok (((v : ℚ) + decimal) * -1), w3)
  else
    andThen (int63n (max - min) w1) fun v w2 => (.ok (((v + min : Int) : ℚ) + decimal), w2)

/-- The values `Curve` draws before it paints: amplitude `a`, offsets `b` and
`f`, period `t`, the end column and the colour `c`. -/
structure CurveParams where
  a : Int
  b : ℚ
  f : ℚ
  t : ℚ
  endX : Int
  c : RGBA

/-- The first part of the closure returned by `Curve()`: all its random
draws, in source order. `int64(float64(img.width)*0.8)` is `4 * width / 5`
truncated. -/
def curveParams (img : Image) (w : World) : Res CurveParams × World :=
  andThen (intn (img.height.tdiv 2) w) fun a w1 =>
  andThen (random ((-img.height).tdiv 4) (img.height.tdiv 4) w1) fun b w2 =>
  andThen (random ((-img.height).tdiv 4) (img.height.tdiv 4) w2) fun f w3 =>
  andThen (if img.height > img.width.tdiv 2
           then random (img.width.tdiv 2) img.height w3
           else random img.height (img.width.tdiv 2) w3) fun t w4 =>
  andThen (random ((4 * img.width).tdiv 5) img.width w4) fun e w5 =>
  andThen (intn 150 w5) fun cr w6 =>
  andThen (intn 150 w6) fun cg w7 =>
  andThen (intn 150 w7) fun cb w8 =>
  (.ok { a := a, b := b, f := f, t := t, endX := truncQ e,
         c := ⟨toUint8 cr, toUint8 cg, toUint8 cb, toUint8 255⟩ }, w8)

/-- The inner loop `for i > 0` of `Curve`, with `i` still to run from `k`
down to 1. -/
def curveStroke (px y : Int) (c : RGBA) : Nat → NRGBAImage → NRGBAImage
  | 0, p => p
  | k + 1, p => curveStroke px y c k (p.Set (px + ((k : Int) + 1)) y c)

/-- The function `Curve()`. The floating-point part, `w != 0` and
`int(float64(a)*math.Sin(w*float64(px)+f) + b + float64(img.width)/5)`, is
the argument `curveY`: `none` when `w` is zero, otherwise the row. -/
def Curve (curveY : CurveParams → Image → Int → Option Int) : ImageOption World :=
  fun img w =>
  andThen (curveParams img w) fun p w1 =>
  let nrgba := forRange (fun px im =>
      match curveY p img px with
      | none => im
      | some y => curveStroke px y p.c (img.height.tdiv 5).toNat im)
    p.endX.toNat 0 img.nrgba
  (.ok { img with nrgba := nrgba }, w1)

/-! ### The font catalogue (fonts.go) -/

/-- The embedded file system `fonts` and the font parser, as far as
`randFontFamily` uses them: `fonts.ReadDir("fonts")` (the file names),
`fonts.ReadFile(path.Join("fonts", name))` and `freetype.ParseFont`. -/
structure FontEnv where
  readDir : Except String (List String)
  readFile : String → Except String (List Nat)
  parseFont : List Nat → Except String Font

/-- The function `errors.Wrap(err, message)`, on error messages. -/
def wrap (e : String) (message : String) : String :=
  message ++ ": " ++ e

/-- The assignment `fontFamilies[name] = f` on the map. -/
def mapInsert (m : List (String × Font)) (name : String) (f : Font) : List (String × Font) :=
  (name, f) :: m.filter (fun kv => kv.1 ≠ name)

/-- The loop `for _, fi := range files` inside `fontFamilyOnce.Do`: it stops
at the first file that cannot be read or parsed and records the error; the
fonts recorded before stay recorded. -/
def loadLoop (env : FontEnv) : List String → FontState → FontState
  | [], st => st
  | fi :: rest, st =>
    match env.readFile ("fonts/" ++ fi) with
    | .error e => { st with fontFamilyErr := some (wrap e ("read file \"" ++ fi ++ "\"")) }
    | .ok data =>
      match env.parseFont data with
      | .error e => { st with fontFamilyErr := some (wrap e ("parse font \"" ++ fi ++ "\"")) }
      | .ok f =>
        loadLoop env rest
          { st with fontFamilyNames := st.fontFamilyNames ++ [fi],
                    fontFamilies := mapInsert st.fontFamilies fi f }

/-- The function passed to `fontFamilyOnce.Do`. -/
def loadFonts (env : FontEnv) (st : FontState) : FontState :=
  match env.readDir with
  | .error e => { st with fontFamilyErr := some (wrap e "read directory") }
  | .ok files => loadLoop env files { st with fontFamilyNames := [], fontFamilies := [] }

/-- The call `fontFamilyOnce.Do(f)`: `f` runs only while the done flag is
unset, and the flag is set afterwards. -/
def onceDo (f : FontState → FontState) (st : FontState) : FontState :=
  if st.onceDone then st
  else { (f st) with onceDone := true, loads := st.loads + 1 }

/-- The function `randFontFamily()`; `.err e` is the Go return `(nil, e)`, and
`.ok none` a nil font returned without error. -/
def randFontFamily (env : FontEnv) (w : World) : Res (Option Font) × World :=
  let w0 : World := { w with fonts := onceDo (loadFonts env) w.fonts }
  match w0.fonts.fontFamilyErr with
  | some e => (.err e, w0)
  | none =>
    andThen (intn (w0.fonts.fontFamilyNames.length : Int) w0) fun idx w1 =>
    match w1.fonts.fontFamilyNames[idx.toNat]? with
    | none => (.panic "index out of range", w1)
    | some name => (.ok ((w1.fonts.fontFamilies.find? (fun kv => kv.1 = name)).map Prod.snd), w1)

/-- The one-time initialisation fails: reading the font directory fails, or
some listed font file cannot be read or cannot be parsed. -/
def InitFails (env : FontEnv) : Prop :=
  (∃ e, env.readDir = .error e)
  ∨ ∃ files, env.readDir = .ok files ∧ ∃ fi ∈ files,
      (∃ e, env.readFile ("fonts/" ++ fi) = .error e)
      ∨ ∃ data e, env.readFile ("fonts/" ++ fi) = .ok data ∧ env.parseFont data = .error e

/-! ### Text -/

/-- The body of the loop of `Text` for the rune `s` at byte index `i`. The
floating-point values `int(fontSize)` and `int(fontSize/2)` come from
`metrics height k`, and `c.DrawString` is `drawString font x y s`. -/
def textGlyph (env : FontEnv) (impl : Int → Fin 256) (metrics : Int → Int → Int × Int)
    (drawString : Option Font → RGBA → Int → Int → Char → Image → Res Image)
    (fontWidth : Int) (i : Nat) (s : Char) (img : Image) (w : World) : Res Image × World :=
  andThen (intn 7 w) fun k w1 =>
  andThen (randomDeepColor impl w1) fun col w2 =>
  match randFontFamily env w2 with
  | (.err e, w3) => (.err (wrap e "Text: get random font family"), w3)
  | (.panic msg, w3) => (.panic msg, w3)
  | (.ok f, w3) =>
    if (metrics img.height k).1 = 0 then (.panic "runtime error: integer divide by zero", w3)
    else
      let x := fontWidth * (i : Int) + fontWidth.tdiv (metrics img.height k).1
      andThen (intn (img.height.tdiv 2) w3) fun yk w4 =>
      let y := 5 + yk + (metrics img.height k).2
      match drawString f col x y s img with
      | .ok img1 => (.ok img1, w4)
      | .err e => (.err (wrap e "Text: draw string"), w4)
      | .panic msg => (.panic msg, w4)

/-- The loop `for i, s := range text` of `Text`: `i` is the byte index of the
rune `s`. -/
def textLoop (glyph : Int → Nat → Char → Image → World → Res Image × World)
    (fontWidth : Int) : Nat → List Char → Image → World → Res Image × World
  | _, [], img, w => (.ok img, w)
  | i, s :: rest, img, w =>
    andThen (glyph fontWidth i s img w) fun img1 w1 =>
    textLoop glyph fontWidth (i + s.utf8Size) rest img1 w1

/-- The statement `fontWidth := img.width / len(text)` of `Text`: an integer
division, which panics when `len(text)` is zero. -/
def textFontWidth (img : Image) (text : String) : Res Int :=
  if text.utf8ByteSize = 0 then .panic "runtime error: integer divide by zero"
  else .ok (img.width.tdiv (text.utf8ByteSize : Int))

/-- The function `Text(text)`, for the loop body `glyph`. -/
def Text (glyph : Int → Nat → Char → Image → World → Res Image × World)
    (text : String) : ImageOption World := fun img w =>
  match textFontWidth img text with
  | .ok fontWidth => textLoop glyph fontWidth 0 text.toList img w
  | .err e => (.err e, w)
  | .panic msg => (.panic msg, w)

end captchautil

namespace captcha

/-- The struct `Options` of the `Captchaer` middleware. -/
structure Options where
  URLPrefix : String
  TextLength : Int
  Width : Int
  Height : Int
  DPI : Int
  deriving Repr, DecidableEq

/-- The closure `parseOptions` of `Captchaer`. -/
def parseOptions (opts : Options) : Options :=
  let opts := if opts.URLPrefix = "" then { opts with URLPrefix := "/.captcha/" } else opts
  let opts := if opts.TextLength ≤ 0 then { opts with TextLength := 4 } else opts
  let opts := if opts.Width ≤ 0 then { opts with Width := 240 } else opts
  let opts := if opts.Height ≤ 0 then { opts with Height := 80 } else opts
  let opts := if opts.DPI ≤ 0 then { opts with DPI := 72 } else opts
  opts

/-- A value stored in a session, an `interface{}`: a string, or a value of
any other dynamic type. -/
inductive Value where
  | str (s : String)
  | other (tag : Nat)
  deriving Repr, DecidableEq

/-- The interface `session.Session`, as far as this package uses it: a store
from keys to values with `Get`, `Set` and `Delete`. -/
structure Session where
  data : String → Option Value

/-- The method `Get(key)`: the stored value, or nil. -/
def Session.Get (s : Session) (key : String) : Option Value :=
  s.data key

/-- The method `Set(key, val)`. -/
def Session.Set (s : Session) (key : String) (val : Value) : Session :=
  { data := fun k => if k = key then some val else s.data k }

/-- The method `Delete(key)`. -/
def Session.Delete (s : Session) (key : String) : Session :=
  { data := fun k => if k = key then none else s.data k }

/-- The constant `textKey`. -/
def textKey : String := "flamego::captcha::text"

/-- The function `strings.EqualFold` on valid UTF-8, rune by rune: equal
runes match; two different runes match when both are ASCII and are the two
cases of one letter; for a pair whose larger rune is not ASCII the search
through the `unicode.SimpleFold` orbit is the argument `foldOrbit lo hi`. The
strings must end together. -/
def equalFoldRunes (foldOrbit : Char → Char → Bool) : List Char → List Char → Bool
  | [], [] => true
  | [], _ :: _ => false
  | _ :: _, [] => false
  | sr :: s, tr :: t =>
    if tr = sr then equalFoldRunes foldOrbit s t
    else
      let lo := if tr < sr then tr else sr
      let hi := if tr < sr then sr else tr
      if hi.toNat < 0x80 then
        if 'A' ≤ lo ∧ lo ≤ 'Z' ∧ hi.toNat = lo.toNat + ('a'.toNat - 'A'.toNat) then
          equalFoldRunes foldOrbit s t
        else false
      else if foldOrbit lo hi then equalFoldRunes foldOrbit s t
      else false

/-- The function `strings.EqualFold(s, t)`. -/
def EqualFold (foldOrbit : Char → Char → Bool) (s t : String) : Bool :=
  equalFoldRunes foldOrbit s.toList t.toList

/-- The struct `captcha`. -/
structure Captcha where
  session : Session
  urlPrefix : String

/-- The method `(*captcha).ValidText(t)`: the returned boolean and the
receiver after the deferred `c.session.Delete(textKey)` has run. -/
def ValidText (foldOrbit : Char → Char → Bool) (c : Captcha) (t : String) : Bool × Captcha :=
  let result : Bool :=
    match c.session.Get textKey with
    | some (.str want) => EqualFold foldOrbit want t
    | _ => false
  (result, { c with session := c.session.Delete textKey })

/-- The choice of the challenge text in the handler of `Captchaer`: the string
stored in the session under `textKey` is used as it is, unless there is none
or the query asks for a refresh; then `RandomText(opt.TextLength)` is
generated and stored, and an error of `RandomText` becomes a panic. The
result is the text passed to `captchautil.Text`. -/
def challengeText (fuel : Nat) (opt : Options) (refresh : Bool) (s : Session)
    (rd : captchautil.Reader) : Option (captchautil.Res String × Session × captchautil.Reader) :=
  match s.Get textKey, refresh with
  | some (.str text), false => some (.ok text, s, rd)
  | _, _ =>
    match captchautil.RandomText fuel opt.TextLength rd with
    | none => none
    | some (.ok text, rd1) => some (.ok text, s.Set textKey (.str text), rd1)
    | some (.err e, rd1) => some (.panic ("captcha: generate random text: " ++ e), s, rd1)
    | some (.panic msg, rd1) => some (.panic msg, s, rd1)

end captcha

/-! ## Theorems -/

namespace captcha

/-- C5: parseOptions replaces an empty URLPrefix by "/.captcha/", a
TextLength <= 0 by 4, a Width <= 0 by 240, a Height <= 0 by 80 and a DPI <= 0
by 72 and keeps every other field value; so the result has positive
TextLength, Width, Height and DPI and a non-empty URLPrefix, and normalising
twice equals normalising once. -/
theorem parseOptions_normalises (o : Options) :
    (parseOptions o).URLPrefix = (if o.URLPrefix = "" then "/.captcha/" else o.URLPrefix)
    ∧ (parseOptions o).TextLength = (if o.TextLength ≤ 0 then 4 else o.TextLength)
    ∧ (parseOptions o).Width = (if o.Width ≤ 0 then 240 else o.Width)
    ∧ (parseOptions o).Height = (if o.Height ≤ 0 then 80 else o.Height)
    ∧ (parseOptions o).DPI = (if o.DPI ≤ 0 then 72 else o.DPI)
    ∧ 0 < (parseOptions o).TextLength ∧ 0 < (parseOptions o).Width
    ∧ 0 < (parseOptions o).Height ∧ 0 < (parseOptions o).DPI
    ∧ (parseOptions o).URLPrefix ≠ ""
    ∧ parseOptions (parseOptions o) = parseOptions o := by
  obtain ⟨u, t, w, h, d⟩ := o
  simp only [parseOptions]
  by_cases hu : u = "" <;> by_cases ht : t ≤ 0 <;> by_cases hw : w ≤ 0 <;>
    by_cases hh : h ≤ 0 <;> by_cases hd : d ≤ 0 <;>
    simp [hu, ht, hw, hh, hd] <;> omega

end captcha

namespace captchautil

theorem alphanum_length : alphanum.length = 62 := by decide

theorem alphanum_toList_length : alphanum.toList.length = 62 := by decide

/-- Every index in `[0, 62)` selects a symbol of the alphabet. -/
theorem strIndex_alphanum (v : Int) (h0 : 0 ≤ v) (h1 : v < 62) :
    ∃ c, strIndex alphanum.toList v = .ok c ∧ c ∈ alphanum.toList := by
  have hlt : v.toNat < alphanum.toList.length := by
    rw [alphanum_toList_length]; omega
  refine ⟨alphanum.toList[v.toNat], ?_, List.getElem_mem _⟩
  unfold strIndex
  rw [if_neg (by omega), List.getElem?_eq_getElem hlt]

/-- For the bound 62 `crypto/rand.Int` reads one byte per draw and keeps its
low six bits. -/
theorem cryptoInt_62 (fuel : Nat) (rd : Reader) :
    cryptoInt fuel rd 62 = cryptoIntLoop 62 1 6 fuel rd := by
  have h61 : ((62 : Int) - 1).toNat = 61 := by decide
  have hbl : bitLen 61 = 6 := by decide
  unfold cryptoInt
  rw [if_neg (by decide), h61, hbl, if_neg (by decide), if_neg (by decide)]

/-- One draw of the redraw loop for the bound 62. -/
theorem cryptoIntLoop_step (fuel : Nat) (rd : Reader) :
    cryptoIntLoop 62 1 6 (fuel + 1) rd
      = match rd.read rd.pos with
        | .error e => some (.err e, { rd with pos := rd.pos + 1 })
        | .ok v =>
          if v % 256 % 64 < 62 then
            some (.ok ((v % 256 % 64 : Nat) : Int), { rd with pos := rd.pos + 1 })
          else cryptoIntLoop 62 1 6 fuel { rd with pos := rd.pos + 1 } := by
  cases h : rd.read rd.pos with
  | error e => simp [cryptoIntLoop, readFull, h]
  | ok v =>
    simp only [cryptoIntLoop, readFull, h, maskFirst, setBytes, List.foldl_cons, List.foldl_nil,
      zero_mul, zero_add]
    have h64 : (2 : Nat) ^ 6 = 64 := by decide
    rw [h64]
    by_cases hacc : v % 256 % 64 < 62
    · have : ((v % 256 % 64 : Nat) : Int) < 62 := by omega
      rw [if_pos this, if_pos hacc]
    · have : ¬ ((v % 256 % 64 : Nat) : Int) < 62 := by omega
      rw [if_neg this, if_neg hacc]

/-- What the redraw loop returns is an index below 62, read from the same
stream further on. -/
theorem cryptoIntLoop_sound : ∀ (fuel : Nat) (rd : Reader) (v : Int) (rd1 : Reader),
    cryptoIntLoop 62 1 6 fuel rd = some (.ok v, rd1) →
    0 ≤ v ∧ v < 62 ∧ rd1.read = rd.read ∧ rd.pos < rd1.pos := by
  intro fuel
  induction fuel with
  | zero => intro rd v rd1 h; simp [cryptoIntLoop] at h
  | succ fuel ih =>
    intro rd v rd1 h
    rw [cryptoIntLoop_step] at h
    cases hr : rd.read rd.pos with
    | error e => rw [hr] at h; simp at h
    | ok raw =>
      rw [hr] at h
      simp only at h
      by_cases hacc : raw % 256 % 64 < 62
      · rw [if_pos hacc] at h
        simp only [Option.some.injEq, Prod.mk.injEq, Res.ok.injEq] at h
        obtain ⟨hv, hrd⟩ := h
        subst hv; subst hrd
        exact ⟨by omega, by omega, rfl, Nat.lt_succ_self _⟩
      · rw [if_neg hacc] at h
        obtain ⟨h0, h1, hread, hpos⟩ := ih _ v rd1 h
        exact ⟨h0, h1, hread, by simp only at hpos; omega⟩

/-- When the reads up to a byte with low six bits below 62 succeed, the
redraw loop returns within as many draws as there are bytes up to that one. -/
theorem cryptoIntLoop_returns : ∀ (d : Nat) (rd : Reader),
    (∀ j, j ≤ d → ∃ v, rd.read (rd.pos + j) = .ok v) →
    (∃ v, rd.read (rd.pos + d) = .ok v ∧ v % 256 % 64 < 62) →
    ∀ fuel, d + 1 ≤ fuel →
      ∃ (index : Int) (rd1 : Reader), cryptoIntLoop 62 1 6 fuel rd = some (.ok index, rd1) := by
  intro d
  induction d with
  | zero =>
    intro rd _ hacc fuel hfuel
    obtain ⟨v, hv, hlt⟩ := hacc
    obtain ⟨f, rfl⟩ : ∃ f, fuel = f + 1 := ⟨fuel - 1, by omega⟩
    rw [cryptoIntLoop_step]
    simp only [Nat.add_zero] at hv
    rw [hv]
    simp only
    rw [if_pos hlt]
    exact ⟨_, _, rfl⟩
  | succ d ih =>
    intro rd hok hacc fuel hfuel
    obtain ⟨f, rfl⟩ : ∃ f, fuel = f + 1 := ⟨fuel - 1, by omega⟩
    rw [cryptoIntLoop_step]
    obtain ⟨v0, hv0⟩ := hok 0 (Nat.zero_le _)
    simp only [Nat.add_zero] at hv0
    rw [hv0]
    simp only
    by_cases hlt : v0 % 256 % 64 < 62
    · rw [if_pos hlt]
      exact ⟨_, _, rfl⟩
    · rw [if_neg hlt]
      apply ih { rd with pos := rd.pos + 1 }
      · intro j hj
        have := hok (j + 1) (by omega)
        simpa [Nat.add_assoc, Nat.add_comm 1 j] using this
      · obtain ⟨v, hv, hvlt⟩ := hacc
        refine ⟨v, ?_, hvlt⟩
        simpa [Nat.add_assoc, Nat.add_comm 1 d] using hv
      · omega

/-- More fuel does not change what the redraw loop returns. -/
theorem cryptoIntLoop_mono : ∀ (fuel : Nat) (rd : Reader) (r : Res Int × Reader),
    cryptoIntLoop 62 1 6 fuel rd = some r →
    ∀ more, cryptoIntLoop 62 1 6 (fuel + more) rd = some r := by
  intro fuel
  induction fuel with
  | zero => intro rd r h; simp [cryptoIntLoop] at h
  | succ fuel ih =>
    intro rd r h more
    have hadd : fuel + 1 + more = (fuel + more) + 1 := by omega
    rw [hadd, cryptoIntLoop_step]
    rw [cryptoIntLoop_step] at h
    cases hr : rd.read rd.pos with
    | error e => rw [hr] at h; exact h
    | ok raw =>
      rw [hr] at h
      simp only at h ⊢
      by_cases hacc : raw % 256 % 64 < 62
      · rw [if_pos hacc] at h ⊢; exact h
      · rw [if_neg hacc] at h ⊢
        exact ih _ r h more

/-- A draw of `randomInt` for the alphabet is a run of the redraw loop for 62. -/
theorem randomInt_alphanum (fuel : Nat) (rd : Reader) :
    randomInt fuel (alphanum.length : Int) rd = cryptoIntLoop 62 1 6 fuel rd := by
  rw [alphanum_length]
  exact cryptoInt_62 fuel rd

theorem EveryDrawSucceeds_later (read : Nat → Except String Nat) (p q : Nat) (hpq : p ≤ q)
    (h : EveryDrawSucceeds ⟨read, p⟩) : EveryDrawSucceeds ⟨read, q⟩ := by
  intro j hj
  exact h j (le_trans hpq hj)

/-- Whatever `RandomText` draws, a buffer the loop returns has the length it
started with, and every byte written is a symbol of the alphabet. -/
theorem randomTextLoop_sound (fuel : Nat) (k : Nat) :
    ∀ (i : Nat) (buffer : List Char) (rd : Reader) (buf : List Char) (rd1 : Reader),
    randomTextLoop fuel k i buffer rd = some (.ok buf, rd1) →
    buf.length = buffer.length
      ∧ ∀ (j : Nat) (c : Char), buf[j]? = some c →
          (j < i ∨ i + k ≤ j) ∧ buffer[j]? = some c ∨ c ∈ alphanum.toList := by
  induction k with
  | zero =>
    intro i buffer rd buf rd1 h
    simp only [randomTextLoop, Option.some.injEq, Prod.mk.injEq, Res.ok.injEq] at h
    obtain ⟨rfl, _⟩ := h
    exact ⟨rfl, fun j c h => Or.inl ⟨by omega, h⟩⟩
  | succ k ih =>
    intro i buffer rd buf rd1 h
    rw [randomTextLoop, randomInt_alphanum] at h
    cases hdraw : cryptoIntLoop 62 1 6 fuel rd with
    | none => rw [hdraw] at h; simp at h
    | some r =>
      obtain ⟨res, rd2⟩ := r
      rw [hdraw] at h
      cases res with
      | err e => simp at h
      | panic m => simp at h
      | ok index =>
        simp only at h
        obtain ⟨h0, h1, _, _⟩ := cryptoIntLoop_sound fuel rd index rd2 hdraw
        obtain ⟨c, hc, hmem⟩ := strIndex_alphanum index h0 h1
        rw [hc] at h
        simp only at h
        obtain ⟨hlen, hall⟩ := ih (i + 1) (buffer.set i c) rd2 buf rd1 h
        refine ⟨by rw [hlen, List.length_set], ?_⟩
        intro j c1 hj
        rcases hall j c1 hj with ⟨hr, hget⟩ | hin
        · by_cases hji : j = i
          · subst hji
            right
            rw [List.getElem?_set_self'] at hget
            cases hb : buffer[j]? with
            | none => simp [hb] at hget
            | some b =>
              simp [hb] at hget
              rw [← hget]; exact hmem
          · left
            refine ⟨by omega, ?_⟩
            rw [List.getElem?_set_ne (Ne.symm hji)] at hget
            exact hget
        · exact Or.inr hin

/-- When every draw succeeds, the loop of `RandomText` returns for every
fuel from some bound on. -/
theorem randomTextLoop_returns (read : Nat → Except String Nat) (k : Nat) :
    ∀ (i : Nat) (buffer : List Char) (p : Nat), EveryDrawSucceeds ⟨read, p⟩ →
    ∃ fuel0, ∀ fuel, fuel0 ≤ fuel →
      ∃ buf rd1, randomTextLoop fuel k i buffer ⟨read, p⟩ = some (.ok buf, rd1) := by
  induction k with
  | zero =>
    intro i buffer p _
    exact ⟨0, fun fuel _ => ⟨buffer, _, rfl⟩⟩
  | succ k ih =>
    intro i buffer p hrd
    obtain ⟨_, q, hpq, v, hv, hacc⟩ := hrd p (le_refl p)
    have hret := cryptoIntLoop_returns (q - p) ⟨read, p⟩
      (fun j _ => (hrd (p + j) (Nat.le_add_right p j)).1)
      ⟨v, by simpa [Nat.add_sub_cancel' hpq] using hv, hacc⟩
    obtain ⟨index, rd1, hdraw⟩ := hret (q - p + 1) (le_refl _)
    obtain ⟨h0, h1, hread, hpos⟩ := cryptoIntLoop_sound _ _ index rd1 hdraw
    obtain ⟨c, hc, _⟩ := strIndex_alphanum index h0 h1
    obtain ⟨rread, rpos⟩ := rd1
    simp only at hread hpos
    subst hread
    obtain ⟨fuel1, hrest⟩ := ih (i + 1) (buffer.set i c) rpos
      (EveryDrawSucceeds_later rread p rpos (le_of_lt hpos) hrd)
    refine ⟨max (q - p + 1) fuel1, fun fuel hfuel => ?_⟩
    have hdraw2 : cryptoIntLoop 62 1 6 fuel ⟨rread, p⟩ = some (.ok index, ⟨rread, rpos⟩) := by
      have := cryptoIntLoop_mono _ _ _ hdraw (fuel - (q - p + 1))
      have hf : q - p + 1 + (fuel - (q - p + 1)) = fuel := by
        have := le_trans (le_max_left (q - p + 1) fuel1) hfuel
        omega
      rw [hf] at this
      exact this
    obtain ⟨buf, rd2, hloop⟩ := hrest fuel (le_trans (le_max_right _ _) hfuel)
    refine ⟨buf, rd2, ?_⟩
    rw [randomTextLoop, randomInt_alphanum, hdraw2]
    simp only [hc]
    exact hloop

/-- Whatever it draws, a text `RandomText` returns has `n` characters, all of
them symbols of the alphabet. -/
theorem RandomText_sound (fuel : Nat) (n : Int) (rd : Reader) (s : String) (rd1 : Reader)
    (h : RandomText fuel n rd = some (.ok s, rd1)) :
    0 ≤ n ∧ n ≤ maxAlloc ∧ (s.length : Int) = n ∧ ∀ c ∈ s.toList, c ∈ alphanum.toList := by
  unfold RandomText at h
  by_cases hn : n < 0 ∨ n > maxAlloc
  · rw [if_pos hn] at h; simp at h
  · rw [if_neg hn] at h
    cases hloop : randomTextLoop fuel n.toNat 0 (List.replicate n.toNat (Char.ofNat 0)) rd with
    | none => rw [hloop] at h; simp at h
    | some r =>
      obtain ⟨res, rd2⟩ := r
      rw [hloop] at h
      cases res with
      | err e => simp at h
      | panic m => simp at h
      | ok buf =>
        simp only [Option.some.injEq, Prod.mk.injEq, Res.ok.injEq] at h
        obtain ⟨hs, _⟩ := h
        subst hs
        obtain ⟨hlen, hall⟩ := randomTextLoop_sound fuel n.toNat 0 _ rd buf rd2 hloop
        refine ⟨by omega, by omega, ?_, ?_⟩
        · show ((buf.length : Nat) : Int) = n
          rw [hlen, List.length_replicate]
          omega
        · intro c hc
          have hc1 : c ∈ buf := hc
          obtain ⟨j, hj⟩ := List.getElem?_of_mem hc1
          rcases hall j c hj with ⟨hr, hget⟩ | hin
          · exfalso
            have hjlt : j < buf.length := by
              by_contra hge
              rw [List.getElem?_eq_none (by omega)] at hj
              cases hj
            rw [hlen, List.length_replicate] at hjlt
            omega
          · exact hin

/-- When every draw succeeds, `RandomText` returns a text for every length
within the allocation limit and every fuel from some bound on. -/
theorem RandomText_returns (n : Int) (hn : 0 ≤ n) (hmax : n ≤ maxAlloc) (rd : Reader)
    (hrd : EveryDrawSucceeds rd) :
    ∃ fuel0, ∀ fuel, fuel0 ≤ fuel → ∃ s rd1, RandomText fuel n rd = some (.ok s, rd1) := by
  obtain ⟨read, p⟩ := rd
  obtain ⟨fuel0, hloop⟩ :=
    randomTextLoop_returns read n.toNat 0 (List.replicate n.toNat (Char.ofNat 0)) p hrd
  refine ⟨fuel0, fun fuel hfuel => ?_⟩
  obtain ⟨buf, rd1, hbuf⟩ := hloop fuel hfuel
  refine ⟨String.mk buf, rd1, ?_⟩
  unfold RandomText
  rw [if_neg (by omega), hbuf]

/-- A reader whose every byte is 255 never lets a draw return: the low six
bits are 63 at every read, so `RandomText(1)` has not returned after any
number of redraws. -/
theorem RandomText_all255 (fuel : Nat) (p : Nat) :
    RandomText fuel 1 ⟨fun _ => .ok 255, p⟩ = none := by
  have hloop : ∀ (fuel p : Nat),
      cryptoIntLoop 62 1 6 fuel ⟨fun _ => .ok 255, p⟩ = none := by
    intro fuel
    induction fuel with
    | zero => intro p; rfl
    | succ fuel ih =>
      intro p
      rw [cryptoIntLoop_step]
      simp only
      rw [if_neg (by decide)]
      exact ih (p + 1)
  unfold RandomText
  rw [if_neg (by decide)]
  have h1 : (1 : Int).toNat = 1 := rfl
  rw [h1, randomTextLoop, randomInt_alphanum, hloop]

/-- The reader whose k-th byte is k + 62: its first two bytes are refused by
the redraw loop, and of any three bytes in a row one is accepted. -/
theorem EveryDrawSucceeds_sample (p : Nat) : EveryDrawSucceeds ⟨fun k => .ok (k + 62), p⟩ := by
  intro q _
  refine ⟨⟨_, rfl⟩, ?_⟩
  have h : (q + 62) % 256 % 64 < 62 ∨ (q + 1 + 62) % 256 % 64 < 62
      ∨ (q + 2 + 62) % 256 % 64 < 62 := by omega
  rcases h with h | h | h
  · exact ⟨q, le_refl q, _, rfl, h⟩
  · exact ⟨q + 1, by omega, _, rfl, h⟩
  · exact ⟨q + 2, by omega, _, rfl, h⟩

/-- C1 (amended): for every n >= 1 within the allocation limit of `make`
(`maxAlloc`), whenever every draw from the entropy source succeeds (every
read returns a byte and every redraw loop of crypto/rand.Int comes to a byte
whose low six bits are below 62), RandomText(n) returns, for every fuel from
some bound on, no error and a string of exactly n characters, each one of the
62 symbols of the alphabet; every index a draw returns for the alphabet lies
in `[0, 62)`, so indexing the alphabet never goes out of range. -/
theorem RandomText_ok (n : Int) (hn : 1 ≤ n) (hmax : n ≤ maxAlloc) (rd : Reader)
    (hrd : EveryDrawSucceeds rd) :
    (∃ fuel0, ∀ fuel, fuel0 ≤ fuel →
        ∃ s rd1, RandomText fuel n rd = some (.ok s, rd1) ∧ (s.length : Int) = n
          ∧ ∀ c ∈ s.toList, c ∈ alphanum.toList)
    ∧ alphanum.length = 62
    ∧ ∀ (fuel : Nat) (rd1 rd2 : Reader) (index : Int),
        randomInt fuel (alphanum.length : Int) rd1 = some (.ok index, rd2) →
        0 ≤ index ∧ index < (alphanum.length : Int)
          ∧ ∃ c, strIndex alphanum.toList index = .ok c := by
  refine ⟨?_, alphanum_length, ?_⟩
  · obtain ⟨fuel0, hret⟩ := RandomText_returns n (by omega) hmax rd hrd
    refine ⟨fuel0, fun fuel hfuel => ?_⟩
    obtain ⟨s, rd1, hs⟩ := hret fuel hfuel
    obtain ⟨_, _, hlen, hall⟩ := RandomText_sound fuel n rd s rd1 hs
    exact ⟨s, rd1, hs, hlen, hall⟩
  · intro fuel rd1 rd2 index h
    rw [randomInt_alphanum] at h
    obtain ⟨h0, h1, _, _⟩ := cryptoIntLoop_sound fuel rd1 index rd2 h
    obtain ⟨c, hc, _⟩ := strIndex_alphanum index h0 h1
    rw [alphanum_length]
    exact ⟨h0, h1, c, hc⟩

/-- Witness of C1 at n = 4 with the reader whose k-th byte is k + 62: the
first two bytes, 62 and 63, are redrawn. -/
theorem RandomText_ok_witness :
    (1 : Int) ≤ 4 ∧ (4 : Int) ≤ maxAlloc ∧ EveryDrawSucceeds ⟨fun k => .ok (k + 62), 0⟩
    ∧ (RandomText 3 4 ⟨fun k => .ok (k + 62), 0⟩).map (fun r => (r.1, r.2.pos))
        = some (.ok "0123", 6)
    ∧ ((∃ fuel0, ∀ fuel, fuel0 ≤ fuel →
        ∃ s rd1, RandomText fuel 4 ⟨fun k => .ok (k + 62), 0⟩ = some (.ok s, rd1)
          ∧ (s.length : Int) = 4 ∧ ∀ c ∈ s.toList, c ∈ alphanum.toList)
      ∧ alphanum.length = 62
      ∧ ∀ (fuel : Nat) (rd1 rd2 : Reader) (index : Int),
        randomInt fuel (alphanum.length : Int) rd1 = some (.ok index, rd2) →
        0 ≤ index ∧ index < (alphanum.length : Int)
          ∧ ∃ c, strIndex alphanum.toList index = .ok c) :=
  ⟨by decide, by decide, EveryDrawSucceeds_sample 0, by decide,
    RandomText_ok 4 (by decide) (by decide) ⟨fun k => .ok (k + 62), 0⟩
      (EveryDrawSucceeds_sample 0)⟩

/-- C1 as stated fails. For n = 2^62, with a reader whose every byte is 5 (so
that every draw succeeds at its first read), `make([]byte, n)` panics and
RandomText returns no string, whatever the fuel. And "every read succeeds"
does not make a draw succeed: with a reader whose every byte is 255 every
read returns a byte, yet RandomText(1) has not returned after any number of
redraws. -/
theorem RandomText_counterexample :
    EveryDrawSucceeds ⟨fun _ => .ok 5, 0⟩
    ∧ (1 : Int) ≤ 4611686018427387904
    ∧ (∀ fuel : Nat,
        (RandomText fuel 4611686018427387904 ⟨fun _ => .ok 5, 0⟩).map (fun r => r.1)
          = some (.panic "runtime error: makeslice: len out of range"))
    ∧ (∀ p : Nat, ∃ v, (⟨fun _ => .ok 255, 0⟩ : Reader).read p = .ok v)
    ∧ (∀ fuel : Nat, RandomText fuel 1 ⟨fun _ => .ok 255, 0⟩ = none) := by
  refine ⟨?_, by decide, ?_, fun _ => ⟨255, rfl⟩, fun fuel => RandomText_all255 fuel 0⟩
  · intro q _
    exact ⟨⟨5, rfl⟩, q, le_refl q, 5, rfl, by decide⟩
  · intro fuel
    unfold RandomText
    rw [if_pos (Or.inr (by decide))]
    rfl

end captchautil

namespace captcha

theorem char_lt_iff (a b : Char) : a < b ↔ a.toNat < b.toNat := Iff.rfl

theorem char_le_iff (a b : Char) : a ≤ b ↔ a.toNat ≤ b.toNat := Iff.rfl

theorem char_eq_of_toNat (a b : Char) (h : a.toNat = b.toNat) : a = b := by
  rw [← Char.ofNat_toNat a, ← Char.ofNat_toNat b, h]

theorem toNat_ofNat_small : ∀ n : Fin 128, (Char.ofNat n.val).toNat = n.val := by decide

theorem toNat_toLower (c : Char) (h : c.toNat < 128) :
    c.toLower.toNat = if 65 ≤ c.toNat ∧ c.toNat ≤ 90 then c.toNat + 32 else c.toNat := by
  unfold Char.toLower
  simp only [ge_iff_le]
  split
  · next h1 => exact toNat_ofNat_small ⟨c.toNat + 32, by omega⟩
  · rfl

/-- On ASCII text `EqualFold` is equality of the lower-case forms, whatever
the fold table for the other runes. -/
theorem equalFoldRunes_ascii (foldOrbit : Char → Char → Bool) :
    ∀ s t : List Char, (∀ c ∈ s, c.toNat < 128) → (∀ c ∈ t, c.toNat < 128) →
      (equalFoldRunes foldOrbit s t = true ↔ s.map Char.toLower = t.map Char.toLower) := by
  intro s
  induction s with
  | nil =>
    intro t _ _
    cases t <;> simp [equalFoldRunes]
  | cons a s ih =>
    intro t hs ht
    cases t with
    | nil => simp [equalFoldRunes]
    | cons b t =>
      have ha : a.toNat < 128 := hs a (List.mem_cons_self _ _)
      have hb : b.toNat < 128 := ht b (List.mem_cons_self _ _)
      have ih1 := ih t (fun c hc => hs c (List.mem_cons_of_mem _ hc))
        (fun c hc => ht c (List.mem_cons_of_mem _ hc))
      have hA : ('A' : Char).toNat = 65 := rfl
      have hZ : ('Z' : Char).toNat = 90 := rfl
      have hla : ('a' : Char).toNat = 97 := rfl
      have hlow : a.toLower = b.toLower ↔ a.toLower.toNat = b.toLower.toNat :=
        ⟨fun h => by rw [h], char_eq_of_toNat _ _⟩
      have hab : b = a ↔ b.toNat = a.toNat := ⟨fun h => by rw [h], char_eq_of_toNat _ _⟩
      simp only [equalFoldRunes, List.map_cons, List.cons.injEq, hlow, toNat_toLower a ha,
        toNat_toLower b hb, ← ih1]
      by_cases hba : b = a
      · subst hba
        simp
      · rw [if_neg hba]
        have hne : b.toNat ≠ a.toNat := fun h => hba (hab.mpr h)
        by_cases hlt : b < a
        · have hlt1 : b.toNat < a.toNat := (char_lt_iff b a).mp hlt
          simp only [hlt, if_true, char_le_iff, hA, hZ, hla]
          rw [if_pos ha]
          by_cases hc : 65 ≤ b.toNat ∧ b.toNat ≤ 90 ∧ a.toNat = b.toNat + (97 - 65)
          · rw [if_pos hc]
            have : (if 65 ≤ a.toNat ∧ a.toNat ≤ 90 then a.toNat + 32 else a.toNat)
                = (if 65 ≤ b.toNat ∧ b.toNat ≤ 90 then b.toNat + 32 else b.toNat) := by
              split_ifs <;> omega
            simp [this]
          · rw [if_neg hc]
            have : ¬ (if 65 ≤ a.toNat ∧ a.toNat ≤ 90 then a.toNat + 32 else a.toNat)
                = (if 65 ≤ b.toNat ∧ b.toNat ≤ 90 then b.toNat + 32 else b.toNat) := by
              split_ifs <;> omega
            simp [this]
        · have hlt1 : a.toNat < b.toNat := by
            have := (char_lt_iff b a).not.mp hlt
            omega
          simp only [hlt, if_false, char_le_iff, hA, hZ, hla]
          rw [if_pos hb]
          by_cases hc : 65 ≤ a.toNat ∧ a.toNat ≤ 90 ∧ b.toNat = a.toNat + (97 - 65)
          · rw [if_pos hc]
            have : (if 65 ≤ a.toNat ∧ a.toNat ≤ 90 then a.toNat + 32 else a.toNat)
                = (if 65 ≤ b.toNat ∧ b.toNat ≤ 90 then b.toNat + 32 else b.toNat) := by
              split_ifs <;> omega
            simp [this]
          · rw [if_neg hc]
            have : ¬ (if 65 ≤ a.toNat ∧ a.toNat ≤ 90 then a.toNat + 32 else a.toNat)
                = (if 65 ≤ b.toNat ∧ b.toNat ≤ 90 then b.toNat + 32 else b.toNat) := by
              split_ifs <;> omega
            simp [this]

/-- C2: ValidText(t) returns true exactly when the session holds a string
secret under the captcha key that equals t under case-insensitive comparison
(strings.EqualFold, which on ASCII text is equality of the lower-case forms;
secret "AbC1" matches "abc1" and not "abc2"; no stored secret, or a stored
value that is not a string, gives false); whatever the outcome, the secret is
absent from the session afterwards, and a second ValidText call returns false
for every input. -/
theorem ValidText_once (foldOrbit : Char → Char → Bool) (c : Captcha) (t : String) :
    ((ValidText foldOrbit c t).1 = true ↔
        ∃ want, c.session.Get textKey = some (.str want) ∧ EqualFold foldOrbit want t = true)
    ∧ (∀ want : String, (∀ a ∈ want.toList, a.toNat < 128) → (∀ a ∈ t.toList, a.toNat < 128) →
        (EqualFold foldOrbit want t = true
          ↔ want.toList.map Char.toLower = t.toList.map Char.toLower))
    ∧ (ValidText foldOrbit c t).2.session.Get textKey = none
    ∧ (∀ t2, (ValidText foldOrbit (ValidText foldOrbit c t).2 t2).1 = false)
    ∧ (ValidText foldOrbit
          ⟨Session.Set ⟨fun _ => none⟩ textKey (.str "AbC1"), c.urlPrefix⟩ "abc1").1 = true
    ∧ (ValidText foldOrbit
          ⟨Session.Set ⟨fun _ => none⟩ textKey (.str "AbC1"), c.urlPrefix⟩ "abc2").1 = false
    ∧ (ValidText foldOrbit ⟨⟨fun _ => none⟩, c.urlPrefix⟩ t).1 = false
    ∧ (ValidText foldOrbit
          ⟨Session.Set ⟨fun _ => none⟩ textKey (.other 0), c.urlPrefix⟩ t).1 = false := by
  refine ⟨?_, ?_, ?_, ?_, ?_, ?_, ?_, ?_⟩
  · unfold ValidText
    cases h : c.session.Get textKey with
    | none => simp
    | some v =>
      cases v with
      | str want => simp
      | other tag => simp
  · intro want hw ht
    exact equalFoldRunes_ascii foldOrbit want.toList t.toList hw ht
  · simp [ValidText, Session.Get, Session.Delete]
  · intro t2
    simp [ValidText, Session.Get, Session.Delete]
  · rfl
  · rfl
  · rfl
  · rfl

end captcha

namespace captchautil

theorem Set_rect (p : NRGBAImage) (x y : Int) (c : RGBA) : (p.Set x y c).rect = p.rect := by
  unfold NRGBAImage.Set
  split <;> rfl

theorem Set_pix (p : NRGBAImage) (x y : Int) (c : RGBA) (i j : Int) :
    (p.Set x y c).pix i j
      = if (i = x ∧ j = y) ∧ p.rect.contains x y = true then nrgbaModel c else p.pix i j := by
  unfold NRGBAImage.Set
  by_cases h : p.rect.contains x y = true
  · by_cases h2 : i = x ∧ j = y <;> simp [h, h2]
  · simp [h]

/-- A loop that paints two positions per iteration: the bounds stay, a
position inside the bounds that some iteration names ends up with the colour,
and every other position keeps its pixel. -/
theorem forRange_paint (c : RGBA) (a b : Int → Int × Int) :
    ∀ (k : Nat) (start : Int) (p : NRGBAImage),
      (forRange (fun i q => (q.Set (a i).1 (a i).2 c).Set (b i).1 (b i).2 c) k start p).rect
          = p.rect
      ∧ ∀ x y : Int,
          ((∃ m : Nat, m < k ∧ ((x, y) = a (start + m) ∨ (x, y) = b (start + m)))
              → p.rect.contains x y = true →
            (forRange (fun i q => (q.Set (a i).1 (a i).2 c).Set (b i).1 (b i).2 c)
              k start p).pix x y = nrgbaModel c)
          ∧ ((¬ ∃ m : Nat, m < k ∧ ((x, y) = a (start + m) ∨ (x, y) = b (start + m)))
              → (forRange (fun i q => (q.Set (a i).1 (a i).2 c).Set (b i).1 (b i).2 c)
              k start p).pix x y = p.pix x y) := by
  intro k
  induction k with
  | zero =>
    intro start p
    refine ⟨rfl, fun x y => ⟨?_, fun _ => rfl⟩⟩
    rintro ⟨m, hm, _⟩
    omega
  | succ k ih =>
    intro start p
    obtain ⟨hrect, hpix⟩ := ih (start + 1)
      ((p.Set (a start).1 (a start).2 c).Set (b start).1 (b start).2 c)
    have hr1 : ((p.Set (a start).1 (a start).2 c).Set (b start).1 (b start).2 c).rect
        = p.rect := by rw [Set_rect, Set_rect]
    simp only [forRange]
    refine ⟨hrect.trans hr1, fun x y => ⟨?_, ?_⟩⟩
    · rintro ⟨m, hm, hxy⟩ hin
      by_cases hlater : ∃ m : Nat, m < k ∧
          ((x, y) = a (start + 1 + m) ∨ (x, y) = b (start + 1 + m))
      · exact (hpix x y).1 hlater (by rw [hr1]; exact hin)
      · rw [(hpix x y).2 hlater]
        have hm0 : m = 0 := by
          by_contra hne
          apply hlater
          refine ⟨m - 1, by omega, ?_⟩
          have : start + 1 + ((m - 1 : Nat) : Int) = start + m := by omega
          rw [this]; exact hxy
        subst hm0
        simp only [Nat.cast_zero, add_zero] at hxy
        rw [Set_pix, Set_rect, Set_pix]
        rcases hxy with h | h
        · have hx : x = (a start).1 := congrArg Prod.fst h
          have hy : y = (a start).2 := congrArg Prod.snd h
          subst hx; subst hy
          simp [hin]
        · have hx : x = (b start).1 := congrArg Prod.fst h
          have hy : y = (b start).2 := congrArg Prod.snd h
          subst hx; subst hy
          simp [hin]
    · intro hnone
      have hlater : ¬ ∃ m : Nat, m < k ∧
          ((x, y) = a (start + 1 + m) ∨ (x, y) = b (start + 1 + m)) := by
        rintro ⟨m, hm, hxy⟩
        apply hnone
        refine ⟨m + 1, by omega, ?_⟩
        have : start + ((m + 1 : Nat) : Int) = start + 1 + m := by push_cast; ring
        rw [this]; exact hxy
      rw [(hpix x y).2 hlater, Set_pix, Set_rect, Set_pix]
      have ha : ¬ (x = (a start).1 ∧ y = (a start).2) := by
        rintro ⟨hx, hy⟩
        exact hnone ⟨0, by omega, Or.inl (by simp [hx, hy])⟩
      have hb : ¬ (x = (b start).1 ∧ y = (b start).2) := by
        rintro ⟨hx, hy⟩
        exact hnone ⟨0, by omega, Or.inr (by simp [hx, hy])⟩
      simp [ha, hb]

/-- Widening a byte to 16 bits and taking the high byte gives the byte back. -/
theorem toUint8_widen (v : Fin 256) : toUint8 (((v.val * 0x101) >>> 8 : Nat) : Int) = v := by
  apply Fin.ext
  have hv := v.isLt
  have h1 : (v.val * 0x101) >>> 8 = v.val := by
    rw [Nat.shiftRight_eq_div_pow]
    omega
  rw [h1]
  simp only [toUint8]
  omega

/-- An opaque colour is stored byte for byte. -/
theorem nrgbaModel_opaque (c : RGBA) (h : c.A = 255) : (nrgbaModel c).sameBytes c := by
  obtain ⟨r, g, b, a⟩ := c
  simp only at h
  subst h
  simp only [nrgbaModel, RGBA.channels16, NRGBA.sameBytes]
  rw [if_pos (by decide)]
  refine ⟨?_, ?_, ?_, ?_⟩
  · exact toUint8_widen r
  · exact toUint8_widen g
  · exact toUint8_widen b
  · rfl

/-- The uniform fill stores an opaque colour byte for byte. -/
theorem uniformPixel_opaque (c : RGBA) (h : c.A = 255) : (uniformPixel c).sameBytes c := by
  obtain ⟨r, g, b, a⟩ := c
  simp only at h
  subst h
  simp only [uniformPixel, RGBA.channels16, NRGBA.sameBytes]
  rw [if_neg (by decide)]
  refine ⟨?_, ?_, ?_, ?_⟩
  · exact toUint8_widen r
  · exact toUint8_widen g
  · exact toUint8_widen b
  · rfl

end captchautil

namespace captchautil

theorem At_of_contains (p : NRGBAImage) (x y : Int) (h : p.rect.contains x y = true) :
    p.At x y = p.pix x y := by
  simp [NRGBAImage.At, h]

theorem contains_canvas (W H x y : Int) :
    (Rectangle.contains ⟨0, 0, W, H⟩ x y = true) ↔ (0 ≤ x ∧ x < W ∧ 0 ≤ y ∧ y < H) := by
  simp [Rectangle.contains, and_assoc]

/-- C3 (amended): for every W x H canvas with W, H >= 1 and every colour C,
Border(C) succeeds, the canvas is still W x H, every pixel on row 0, row H-1,
column 0 and column W-1 holds C converted to the non-premultiplied pixel
format of the canvas, which is C itself, byte for byte, whenever C is opaque
(alpha 255), and every pixel off those four edges is unchanged. -/
theorem Border_paints_edges {σ : Type} (W H : Int) (hW : 1 ≤ W) (hH : 1 ≤ H)
    (img : Image) (himg : img.IsCanvas W H) (C : RGBA) (s : σ) :
    ∃ out : Image, Border C img s = (.ok out, s) ∧ out.IsCanvas W H ∧ out.dpi = img.dpi ∧
      ∀ x y : Int, 0 ≤ x → x < W → 0 ≤ y → y < H →
        ((x = 0 ∨ x = W - 1 ∨ y = 0 ∨ y = H - 1) →
            out.nrgba.At x y = nrgbaModel C
            ∧ (C.A = 255 → (out.nrgba.At x y).sameBytes C))
        ∧ (¬ (x = 0 ∨ x = W - 1 ∨ y = 0 ∨ y = H - 1) →
            out.nrgba.At x y = img.nrgba.At x y) := by
  obtain ⟨hw, hh, hrect⟩ := himg
  subst hw; subst hh
  have h1 := forRange_paint C (fun x => (x, 0)) (fun x => (x, img.height - 1))
    img.width.toNat 0 img.nrgba
  simp only at h1
  obtain ⟨hr1, hp1⟩ := h1
  have h2 := forRange_paint C (fun y => (0, y)) (fun y => (img.width - 1, y)) img.height.toNat 0
    (forRange (fun x p => (p.Set x 0 C).Set x (img.height - 1) C) img.width.toNat 0 img.nrgba)
  simp only at h2
  obtain ⟨hr2, hp2⟩ := h2
  refine ⟨⟨img.width, img.height, img.dpi,
    forRange (fun y p => (p.Set 0 y C).Set (img.width - 1) y C) img.height.toNat 0
      (forRange (fun x p => (p.Set x 0 C).Set x (img.height - 1) C) img.width.toNat 0
        img.nrgba)⟩, rfl, ⟨rfl, rfl, ?_⟩, rfl, ?_⟩
  · show (forRange _ img.height.toNat 0 (forRange _ img.width.toNat 0 img.nrgba)).rect = _
    rw [hr2, hr1, hrect]
  · intro x y hx0 hxW hy0 hyH
    have hin : img.nrgba.rect.contains x y = true := by
      rw [hrect]; exact (contains_canvas _ _ x y).mpr ⟨hx0, hxW, hy0, hyH⟩
    have hin1 : (forRange (fun x p => (p.Set x 0 C).Set x (img.height - 1) C) img.width.toNat 0
        img.nrgba).rect.contains x y = true := by rw [hr1]; exact hin
    have hat : (forRange (fun y p => (p.Set 0 y C).Set (img.width - 1) y C) img.height.toNat 0
            (forRange (fun x p => (p.Set x 0 C).Set x (img.height - 1) C) img.width.toNat 0
              img.nrgba)).At x y
        = (forRange (fun y p => (p.Set 0 y C).Set (img.width - 1) y C) img.height.toNat 0
            (forRange (fun x p => (p.Set x 0 C).Set x (img.height - 1) C) img.width.toNat 0
              img.nrgba)).pix x y :=
      At_of_contains _ x y (by rw [hr2]; exact hin1)
    show _ ∧ _
    simp only [hat]
    have key : ∀ (hedge : x = 0 ∨ x = img.width - 1 ∨ y = 0 ∨ y = img.height - 1),
        (forRange (fun y p => (p.Set 0 y C).Set (img.width - 1) y C) img.height.toNat 0
            (forRange (fun x p => (p.Set x 0 C).Set x (img.height - 1) C) img.width.toNat 0 img.nrgba)).pix x y
          = nrgbaModel C := by
      intro hedge
      by_cases hcol : x = 0 ∨ x = img.width - 1
      · refine (hp2 x y).1 ⟨y.toNat, by omega, ?_⟩ hin1
        have hy : (0 : Int) + (y.toNat : Int) = y := by omega
        rw [hy]
        rcases hcol with h | h
        · exact Or.inl (by rw [h])
        · exact Or.inr (by rw [h])
      · have hrow : y = 0 ∨ y = img.height - 1 := by tauto
        have hno : ¬ ∃ m : Nat, m < img.height.toNat ∧
            ((x, y) = ((0 : Int), (0 : Int) + (m : Int))
              ∨ (x, y) = (img.width - 1, (0 : Int) + (m : Int))) := by
          rintro ⟨m, _, h | h⟩
          · exact hcol (Or.inl (congrArg Prod.fst h))
          · exact hcol (Or.inr (congrArg Prod.fst h))
        rw [(hp2 x y).2 hno]
        refine (hp1 x y).1 ⟨x.toNat, by omega, ?_⟩ hin
        have hx : (0 : Int) + (x.toNat : Int) = x := by omega
        rw [hx]
        rcases hrow with h | h
        · exact Or.inl (by rw [h])
        · exact Or.inr (by rw [h])
    refine ⟨fun hedge => ?_, fun hoff => ?_⟩
    · rw [key hedge]
      exact ⟨rfl, fun hA => nrgbaModel_opaque C hA⟩
    · rw [At_of_contains _ x y hin]
      have hno2 : ¬ ∃ m : Nat, m < img.height.toNat ∧
          ((x, y) = ((0 : Int), (0 : Int) + (m : Int))
            ∨ (x, y) = (img.width - 1, (0 : Int) + (m : Int))) := by
        rintro ⟨m, _, h | h⟩
        · exact hoff (Or.inl (congrArg Prod.fst h))
        · exact hoff (Or.inr (Or.inl (congrArg Prod.fst h)))
      have hno1 : ¬ ∃ m : Nat, m < img.width.toNat ∧
          ((x, y) = ((0 : Int) + (m : Int), (0 : Int))
            ∨ (x, y) = ((0 : Int) + (m : Int), img.height - 1)) := by
        rintro ⟨m, _, h | h⟩
        · exact hoff (Or.inr (Or.inr (Or.inl (congrArg Prod.snd h))))
        · exact hoff (Or.inr (Or.inr (Or.inr (congrArg Prod.snd h))))
      rw [(hp2 x y).2 hno2, (hp1 x y).2 hno1]

end captchautil

namespace captchautil

/-- Witness of C3 on a 3 x 2 white canvas with the border colour used by
the middleware. -/
theorem Border_paints_edges_witness :
    (1 : Int) ≤ 3 ∧ (1 : Int) ≤ 2 ∧ (newImage 3 2 72 ⟨255, 255, 255, 255⟩).IsCanvas 3 2
    ∧ ∃ out : Image,
        @Border Unit ⟨170, 170, 170, 255⟩ (newImage 3 2 72 ⟨255, 255, 255, 255⟩) ()
          = (.ok out, ())
        ∧ out.IsCanvas 3 2 ∧ out.dpi = (newImage 3 2 72 ⟨255, 255, 255, 255⟩).dpi ∧
      ∀ x y : Int, 0 ≤ x → x < 3 → 0 ≤ y → y < 2 →
        ((x = 0 ∨ x = 3 - 1 ∨ y = 0 ∨ y = 2 - 1) →
            out.nrgba.At x y = nrgbaModel ⟨170, 170, 170, 255⟩
            ∧ ((⟨170, 170, 170, 255⟩ : RGBA).A = 255 →
                (out.nrgba.At x y).sameBytes ⟨170, 170, 170, 255⟩))
        ∧ (¬ (x = 0 ∨ x = 3 - 1 ∨ y = 0 ∨ y = 2 - 1) →
            out.nrgba.At x y = (newImage 3 2 72 ⟨255, 255, 255, 255⟩).nrgba.At x y) :=
  ⟨by decide, by decide, ⟨rfl, rfl, rfl⟩,
    Border_paints_edges 3 2 (by decide) (by decide) (newImage 3 2 72 ⟨255, 255, 255, 255⟩)
      ⟨rfl, rfl, rfl⟩ ⟨170, 170, 170, 255⟩ ()⟩

/-- C3 as stated fails for a colour that is not opaque: on a 1 x 1 canvas,
Border with the half-transparent grey (64, 64, 64, 128) leaves the pixel
(127, 127, 127, 128) at (0, 0), which has neither the bytes of the colour nor
its 16-bit colour value. -/
theorem Border_translucent_counterexample :
    (newImage 1 1 72 ⟨255, 255, 255, 255⟩).IsCanvas 1 1
    ∧ ((@Border Unit ⟨64, 64, 64, 128⟩ (newImage 1 1 72 ⟨255, 255, 255, 255⟩) ()).1.value.map
          (fun out => out.nrgba.At 0 0)) = some ⟨127, 127, 127, 128⟩
    ∧ ¬ NRGBA.sameBytes ⟨127, 127, 127, 128⟩ ⟨64, 64, 64, 128⟩
    ∧ NRGBA.channels16 ⟨127, 127, 127, 128⟩ ≠ RGBA.channels16 ⟨64, 64, 64, 128⟩ := by
  refine ⟨⟨rfl, rfl, rfl⟩, by decide, by decide, by decide⟩

theorem applyOptions_append {σ : Type} (pre rest : List (ImageOption σ)) :
    ∀ (img : Image) (s : σ),
      applyOptions (pre ++ rest) img s = andThen (applyOptions pre img s) (applyOptions rest) := by
  induction pre with
  | nil => intro img s; rfl
  | cons opt pre ih =>
    intro img s
    simp only [List.cons_append, applyOptions]
    rcases h : opt img s with ⟨r, s1⟩
    cases r with
    | ok img1 => exact ih img1 s1
    | err e => rfl
    | panic msg => rfl

theorem newImage_pixel (W H dpi : Int) (hW : 1 ≤ W) (hH : 1 ≤ H) (bg : RGBA) (x y : Int)
    (hx0 : 0 ≤ x) (hxW : x < W) (hy0 : 0 ≤ y) (hyH : y < H) :
    (newImage W H dpi bg).nrgba.At x y = uniformPixel bg := by
  have hrect : Rect 0 0 W H = ⟨0, 0, W, H⟩ := by
    simp only [Rect]
    rw [if_neg (by omega), if_neg (by omega)]
  have hin : Rectangle.contains ⟨0, 0, W, H⟩ x y = true :=
    (contains_canvas W H x y).mpr ⟨hx0, hxW, hy0, hyH⟩
  simp [newImage, drawUniform, zeroNRGBA, NRGBAImage.At, hrect, hin]

/-- Within the limits of `image.NewNRGBA`, `CreateImage` applies its options
to the canvas `newImage`. -/
theorem CreateImage_eq {σ : Type} (W H dpi : Int) (hW : 1 ≤ W) (hH : 1 ≤ H)
    (hsize : 4 * W * H ≤ maxAlloc) (bg : RGBA) (opts : List (ImageOption σ)) (s : σ) :
    CreateImage W H dpi bg opts s = applyOptions opts (newImage W H dpi bg) s := by
  have hrect : Rect 0 0 W H = ⟨0, 0, W, H⟩ := by
    simp only [Rect]
    rw [if_neg (by omega), if_neg (by omega)]
  have hmul : 4 * W ≤ 4 * W * H := le_mul_of_one_le_right (by omega) hH
  have hA : maxAlloc = 281474976710656 := rfl
  have hI : maxInt = 9223372036854775807 := rfl
  have hnew : NewNRGBA ⟨0, 0, W, H⟩ = .ok (zeroNRGBA ⟨0, 0, W, H⟩) := by
    unfold NewNRGBA
    simp only [sub_zero]
    rw [if_neg (by omega), if_neg (by omega)]
  unfold CreateImage newImage
  rw [hrect, hnew]

/-- C4 (amended): for every W, H >= 1 whose pixel buffer of 4*W*H bytes is
within the allocation limit (`maxAlloc`), every background colour and every
list of options, CreateImage starts from a W x H canvas in which every pixel
holds the background converted to the pixel format of the canvas, which is
the background itself, byte for byte, when the background is opaque, and
applies the options in exactly the order supplied: with no option the result
is that canvas; each further option is applied to the canvas and state the
earlier ones produced, and its outcome is the outcome of CreateImage; when an
option returns an error, CreateImage returns that error and no image,
whatever options follow, and the state is the one the failing option left,
so no later option is applied. -/
theorem CreateImage_ordered {σ : Type} (W H dpi : Int) (hW : 1 ≤ W) (hH : 1 ≤ H)
    (hsize : 4 * W * H ≤ maxAlloc) (bg : RGBA) (s : σ) :
    (newImage W H dpi bg).IsCanvas W H
    ∧ (∀ x y : Int, 0 ≤ x → x < W → 0 ≤ y → y < H →
        (newImage W H dpi bg).nrgba.At x y = uniformPixel bg
        ∧ (bg.A = 255 → ((newImage W H dpi bg).nrgba.At x y).sameBytes bg))
    ∧ CreateImage W H dpi bg ([] : List (ImageOption σ)) s = (.ok (newImage W H dpi bg), s)
    ∧ (∀ (pre : List (ImageOption σ)) (opt : ImageOption σ) (img : Image) (s1 : σ),
        CreateImage W H dpi bg pre s = (.ok img, s1) →
        CreateImage W H dpi bg (pre ++ [opt]) s = opt img s1)
    ∧ (∀ (pre rest : List (ImageOption σ)) (opt : ImageOption σ) (img : Image) (s1 s2 : σ)
        (e : String),
        CreateImage W H dpi bg pre s = (.ok img, s1) → opt img s1 = (.err e, s2) →
        CreateImage W H dpi bg (pre ++ opt :: rest) s = (.err e, s2)) := by
  refine ⟨⟨rfl, rfl, ?_⟩, ?_, ?_, ?_, ?_⟩
  · show Rect 0 0 W H = _
    simp only [Rect]
    rw [if_neg (by omega), if_neg (by omega)]
  · intro x y hx0 hxW hy0 hyH
    have h := newImage_pixel W H dpi hW hH bg x y hx0 hxW hy0 hyH
    exact ⟨h, fun hbg => by rw [h]; exact uniformPixel_opaque bg hbg⟩
  · rw [CreateImage_eq W H dpi hW hH hsize]
    rfl
  · intro pre opt img s1 hpre
    rw [CreateImage_eq W H dpi hW hH hsize] at hpre ⊢
    rw [applyOptions_append, hpre]
    simp only [andThen, applyOptions]
    rcases opt img s1 with ⟨r, s2⟩
    cases r <;> rfl
  · intro pre rest opt img s1 s2 e hpre hopt
    rw [CreateImage_eq W H dpi hW hH hsize] at hpre ⊢
    rw [applyOptions_append, hpre]
    simp only [andThen, applyOptions, hopt]

/-- Witness of C4 on a 2 x 2 canvas with a half-transparent background. -/
theorem CreateImage_ordered_witness :
    (1 : Int) ≤ 2 ∧ (4 * 2 * 2 : Int) ≤ maxAlloc
    ∧ (newImage 2 2 72 ⟨64, 64, 64, 128⟩).IsCanvas 2 2
    ∧ (∀ x y : Int, 0 ≤ x → x < 2 → 0 ≤ y → y < 2 →
        (newImage 2 2 72 ⟨64, 64, 64, 128⟩).nrgba.At x y = uniformPixel ⟨64, 64, 64, 128⟩
        ∧ ((⟨64, 64, 64, 128⟩ : RGBA).A = 255 →
            ((newImage 2 2 72 ⟨64, 64, 64, 128⟩).nrgba.At x y).sameBytes ⟨64, 64, 64, 128⟩))
    ∧ CreateImage 2 2 72 ⟨64, 64, 64, 128⟩ ([] : List (ImageOption Unit)) ()
        = (.ok (newImage 2 2 72 ⟨64, 64, 64, 128⟩), ())
    ∧ (∀ (pre : List (ImageOption Unit)) (opt : ImageOption Unit) (img : Image) (s1 : Unit),
        CreateImage 2 2 72 ⟨64, 64, 64, 128⟩ pre () = (.ok img, s1) →
        CreateImage 2 2 72 ⟨64, 64, 64, 128⟩ (pre ++ [opt]) () = opt img s1)
    ∧ (∀ (pre rest : List (ImageOption Unit)) (opt : ImageOption Unit) (img : Image)
        (s1 s2 : Unit) (e : String),
        CreateImage 2 2 72 ⟨64, 64, 64, 128⟩ pre () = (.ok img, s1) →
        opt img s1 = (.err e, s2) →
        CreateImage 2 2 72 ⟨64, 64, 64, 128⟩ (pre ++ opt :: rest) () = (.err e, s2)) :=
  ⟨by decide, by decide,
    CreateImage_ordered 2 2 72 (by decide) (by decide) (by decide) ⟨64, 64, 64, 128⟩ ()⟩

/-- C4 as stated fails. For a background that is not opaque the 1 x 1 canvas
created with the half-transparent grey (64, 64, 64, 128) holds the pixel
(127, 127, 127, 128), which has neither the bytes of the background nor its
16-bit colour value. And for W = H = 2^31 the buffer length 4*W*H does not
fit an `int`: image.NewNRGBA panics and CreateImage builds no canvas. -/
theorem CreateImage_translucent_counterexample :
    ((@CreateImage Unit 1 1 72 ⟨64, 64, 64, 128⟩ [] ()).1.value.map
          (fun out => out.nrgba.At 0 0)) = some ⟨127, 127, 127, 128⟩
    ∧ ¬ NRGBA.sameBytes ⟨127, 127, 127, 128⟩ ⟨64, 64, 64, 128⟩
    ∧ NRGBA.channels16 ⟨127, 127, 127, 128⟩ ≠ RGBA.channels16 ⟨64, 64, 64, 128⟩
    ∧ (@CreateImage Unit 2147483648 2147483648 72 ⟨255, 255, 255, 255⟩ [] ()).1
        = .panic "image: NewNRGBA Rectangle has huge or negative dimensions" := by
  refine ⟨by decide, by decide, by decide, rfl⟩

end captchautil

namespace captchautil

theorem alphanum_ascii : ∀ c ∈ alphanum.toList, c.utf8Size = 1 := by decide

theorem utf8ByteSize_ascii (l : List Char) (h : ∀ c ∈ l, c.utf8Size = 1) :
    (String.mk l).utf8ByteSize = l.length := by
  induction l with
  | nil => rfl
  | cons c l ih =>
    have hc := h c (List.mem_cons_self _ _)
    have hl := ih (fun d hd => h d (List.mem_cons_of_mem _ hd))
    simp only [String.utf8ByteSize, String.utf8ByteSize.go, List.length_cons] at hl ⊢
    omega

/-- For every canvas and state, `Text` with the empty string panics in the
division `img.width / len(text)`. -/
theorem Text_empty_panics (glyph : Int → Nat → Char → Image → World → Res Image × World)
    (img : Image) (w : World) :
    Text glyph "" img w = (.panic "runtime error: integer divide by zero", w) := rfl

/-- C6 as stated fails: applied to the empty string on a 240 x 80 canvas,
Text performs the division of the canvas width by the character count 0 and
ends in the run-time panic of an integer division by zero; it returns no
error value. -/
theorem Text_empty_counterexample :
    textFontWidth (newImage 240 80 72 ⟨255, 255, 255, 255⟩) ""
        = .panic "runtime error: integer divide by zero"
    ∧ (Text (fun _ _ _ img w => (.ok img, w)) "" (newImage 240 80 72 ⟨255, 255, 255, 255⟩)
        ⟨⟨fun _ => 0, 0⟩, ⟨fun _ => 0, 0⟩, ⟨fun k => .ok k, 0⟩, FontState.zero⟩).1
        = .panic "runtime error: integer divide by zero"
    ∧ ∀ e : String,
      (Text (fun _ _ _ img w => (.ok img, w)) "" (newImage 240 80 72 ⟨255, 255, 255, 255⟩)
        ⟨⟨fun _ => 0, 0⟩, ⟨fun _ => 0, 0⟩, ⟨fun k => .ok k, 0⟩, FontState.zero⟩).1
        ≠ .err e := by
  refine ⟨rfl, rfl, ?_⟩
  intro e h
  rw [Text_empty_panics] at h
  cases h

end captchautil

namespace captcha

open captchautil

/-- The handler generates the text, and does not take it from the session,
when a refresh is asked for or no string is stored under the key. -/
theorem challengeText_generates (fuel : Nat) (opt : Options) (refresh : Bool) (s : Session)
    (rd : Reader) (hgen : refresh = true ∨ ∀ t, s.Get textKey ≠ some (.str t)) :
    challengeText fuel opt refresh s rd
      = match RandomText fuel opt.TextLength rd with
        | none => none
        | some (.ok text, rd1) => some (.ok text, s.Set textKey (.str text), rd1)
        | some (.err e, rd1) => some (.panic ("captcha: generate random text: " ++ e), s, rd1)
        | some (.panic msg, rd1) => some (.panic msg, s, rd1) := by
  unfold challengeText
  cases hget : s.Get textKey with
  | none => rfl
  | some v =>
    cases v with
    | other tag => rfl
    | str t =>
      rcases hgen with h | h
      · subst h; rfl
      · exact absurd hget (h t)

/-- C6 (amended): a text length of 0 (or less) is never generated. parseOptions
replaces a TextLength <= 0 by 4, and whenever the handler generates the
challenge text (a refresh is asked for, or no string is stored under the
captcha key), the text it returns has exactly the normalised, positive number
of characters and is stored in the session, so that the division of the
canvas width by the character count in Text has a non-zero divisor and Text
goes on to draw the glyphs; the text is generated, for every fuel from some
bound on, when every draw from the entropy source succeeds and the length is
within the allocation limit. Text itself makes no check and returns no
validation error: a string already stored in the session is passed on as it
is. -/
theorem Text_division_guarded (opts : Options) (fuel : Nat) (refresh : Bool) (s : Session)
    (rd : Reader) :
    0 < (parseOptions opts).TextLength
    ∧ (∀ (text : String) (s1 : Session) (rd1 : Reader),
        (refresh = true ∨ ∀ t, s.Get textKey ≠ some (.str t)) →
        challengeText fuel (parseOptions opts) refresh s rd = some (.ok text, s1, rd1) →
        (text.utf8ByteSize : Int) = (parseOptions opts).TextLength
        ∧ s1.Get textKey = some (.str text)
        ∧ ∀ (glyph : Int → Nat → Char → Image → World → Res Image × World)
            (img : Image) (w : World),
            textFontWidth img text = .ok (img.width.tdiv (parseOptions opts).TextLength)
            ∧ Text glyph text img w
                = textLoop glyph (img.width.tdiv (parseOptions opts).TextLength) 0
                    text.toList img w)
    ∧ ((refresh = true ∨ ∀ t, s.Get textKey ≠ some (.str t)) →
        EveryDrawSucceeds rd → (parseOptions opts).TextLength ≤ maxAlloc →
        ∃ fuel0, ∀ f, fuel0 ≤ f →
          ∃ text s1 rd1, challengeText f (parseOptions opts) refresh s rd
            = some (.ok text, s1, rd1))
    ∧ (∀ t : String, s.Get textKey = some (.str t) →
        challengeText fuel (parseOptions opts) false s rd = some (.ok t, s, rd)) := by
  have hpos : 0 < (parseOptions opts).TextLength := by
    obtain ⟨u, t, w, h, d⟩ := opts
    simp only [parseOptions]
    by_cases hu : u = "" <;> by_cases ht : t ≤ 0 <;> by_cases hw : w ≤ 0 <;>
      by_cases hh : h ≤ 0 <;> by_cases hd : d ≤ 0 <;>
      simp [hu, ht, hw, hh, hd] <;> omega
  refine ⟨hpos, ?_, ?_, ?_⟩
  · intro text s1 rd1 hgen hret
    rw [challengeText_generates fuel _ refresh s rd hgen] at hret
    cases hrt : RandomText fuel (parseOptions opts).TextLength rd with
    | none => rw [hrt] at hret; simp at hret
    | some r =>
      obtain ⟨res, rd2⟩ := r
      rw [hrt] at hret
      cases res with
      | err e => simp at hret
      | panic m => simp at hret
      | ok txt =>
        simp only [Option.some.injEq, Prod.mk.injEq, Res.ok.injEq] at hret
        obtain ⟨htxt, hs1, _⟩ := hret
        subst htxt
        obtain ⟨_, _, hlen, hall⟩ := RandomText_sound fuel _ rd txt rd2 hrt
        have hsize : txt.utf8ByteSize = txt.length := by
          obtain ⟨l⟩ := txt
          exact utf8ByteSize_ascii l (fun c hc => alphanum_ascii c (hall c hc))
        have hsz : (txt.utf8ByteSize : Int) = (parseOptions opts).TextLength := by
          rw [hsize]; exact hlen
        refine ⟨hsz, ?_, ?_⟩
        · rw [← hs1]
          simp [Session.Get, Session.Set]
        · intro glyph img w
          have hne : ¬ txt.utf8ByteSize = 0 := by omega
          have hfw : textFontWidth img txt
              = .ok (img.width.tdiv (parseOptions opts).TextLength) := by
            unfold textFontWidth
            rw [if_neg hne, hsz]
          refine ⟨hfw, ?_⟩
          unfold Text
          rw [hfw]
  · intro hgen hrd hmax
    obtain ⟨fuel0, hret⟩ := RandomText_returns _ (le_of_lt hpos) hmax rd hrd
    refine ⟨fuel0, fun f hf => ?_⟩
    obtain ⟨text, rd1, htext⟩ := hret f hf
    refine ⟨text, s.Set textKey (.str text), rd1, ?_⟩
    rw [challengeText_generates f _ refresh s rd hgen, htext]
  · intro t ht
    unfold challengeText
    rw [ht]

/-- Witness of C6: with the zero Options, an empty session and the reader
whose k-th byte is k + 62, the handler generates the four characters "0123";
with the empty string stored in the session and no refresh it passes the
empty string on. -/
theorem Text_division_guarded_witness :
    (challengeText 3 (parseOptions ⟨"", 0, 0, 0, 0⟩) false ⟨fun _ => none⟩
        ⟨fun k => .ok (k + 62), 0⟩).map (fun r => (r.1, r.2.2.pos)) = some (.ok "0123", 6)
    ∧ (challengeText 3 (parseOptions ⟨"", 0, 0, 0, 0⟩) false
        (Session.Set ⟨fun _ => none⟩ textKey (.str "")) ⟨fun k => .ok (k + 62), 0⟩).map
          (fun r => (r.1, r.2.2.pos)) = some (.ok "", 0)
    ∧ 0 < (parseOptions ⟨"", 0, 0, 0, 0⟩).TextLength
    ∧ (∃ fuel0, ∀ f, fuel0 ≤ f →
          ∃ text s1 rd1, challengeText f (parseOptions ⟨"", 0, 0, 0, 0⟩) false ⟨fun _ => none⟩
            ⟨fun k => .ok (k + 62), 0⟩ = some (.ok text, s1, rd1)) :=
  ⟨by decide, by decide,
   (Text_division_guarded ⟨"", 0, 0, 0, 0⟩ 3 false ⟨fun _ => none⟩
      ⟨fun k => .ok (k + 62), 0⟩).1,
   (Text_division_guarded ⟨"", 0, 0, 0, 0⟩ 3 false ⟨fun _ => none⟩
      ⟨fun k => .ok (k + 62), 0⟩).2.2.1 (Or.inr (fun t h => by cases h))
      (EveryDrawSucceeds_sample 0) (by decide)⟩

end captcha

namespace captchautil

theorem loadLoop_fails (env : FontEnv) : ∀ (files : List String) (st : FontState),
    (∃ fi ∈ files, (∃ e, env.readFile ("fonts/" ++ fi) = .error e)
      ∨ ∃ data e, env.readFile ("fonts/" ++ fi) = .ok data ∧ env.parseFont data = .error e) →
    ∃ e, (loadLoop env files st).fontFamilyErr = some e := by
  intro files
  induction files with
  | nil =>
    rintro st ⟨fi, hfi, _⟩
    cases hfi
  | cons f0 rest ih =>
    rintro st ⟨fi, hfi, hfail⟩
    simp only [loadLoop]
    cases hread : env.readFile ("fonts/" ++ f0) with
    | error e => exact ⟨_, rfl⟩
    | ok data =>
      dsimp only
      cases hparse : env.parseFont data with
      | error e => exact ⟨_, rfl⟩
      | ok fnt =>
        dsimp only
        apply ih
        rcases List.mem_cons.mp hfi with h | h
        · subst h
          rcases hfail with ⟨e, he⟩ | ⟨d, e, hd, he⟩
          · rw [hread] at he; cases he
          · rw [hread] at hd
            cases hd
            rw [hparse] at he; cases he
        · exact ⟨fi, h, hfail⟩

theorem loadFonts_fails (env : FontEnv) (st : FontState) (h : InitFails env) :
    ∃ e, (loadFonts env st).fontFamilyErr = some e := by
  unfold loadFonts
  rcases h with ⟨e, he⟩ | ⟨files, hfiles, hfail⟩
  · rw [he]; exact ⟨_, rfl⟩
  · rw [hfiles]; exact loadLoop_fails env files _ hfail

/-- C7: when the one-time initialisation of the font catalogue fails (the
directory cannot be read, or a font file cannot be read or parsed, even after
earlier fonts were parsed and recorded), the first call of randFontFamily
records an error and returns it with no font; every later call, whatever the
rest of the state, returns the same error and no font and leaves the
catalogue as it is, so the loading has run exactly once and is never run
again. -/
theorem randFontFamily_failed_forever (env : FontEnv) (w : World)
    (hnew : w.fonts.onceDone = false) (hfail : InitFails env) :
    ∃ e, (randFontFamily env w).1 = .err e
      ∧ (randFontFamily env w).2.fonts.fontFamilyErr = some e
      ∧ (randFontFamily env w).2.fonts.onceDone = true
      ∧ (randFontFamily env w).2.fonts.loads = w.fonts.loads + 1
      ∧ ∀ w2 : World, w2.fonts = (randFontFamily env w).2.fonts →
          randFontFamily env w2 = (.err e, w2) := by
  obtain ⟨e, he⟩ := loadFonts_fails env w.fonts hfail
  have hst : onceDo (loadFonts env) w.fonts
      = { (loadFonts env w.fonts) with onceDone := true, loads := w.fonts.loads + 1 } := by
    simp [onceDo, hnew]
  have hcall : randFontFamily env w
      = (.err e, { w with fonts := onceDo (loadFonts env) w.fonts }) := by
    simp only [randFontFamily, hst, he]
  refine ⟨e, ?_, ?_, ?_, ?_, ?_⟩
  · rw [hcall]
  · rw [hcall]; simp only [hst, he]
  · rw [hcall]; simp only [hst]
  · rw [hcall]; simp only [hst]
  · intro w2 hw2
    rw [hcall] at hw2
    simp only [hst] at hw2
    have hdone : onceDo (loadFonts env) w2.fonts = w2.fonts := by
      simp [onceDo, hw2]
    have herr : w2.fonts.fontFamilyErr = some e := by rw [hw2]; exact he
    simp only [randFontFamily, hdone, herr]

end captchautil

namespace captchautil

/-- Witness of C7: the directory lists two fonts, the first parses and is
recorded, the second does not parse; the call returns the error although one
font is in the catalogue. -/
theorem randFontFamily_failed_forever_witness :
    FontState.zero.onceDone = false
    ∧ InitFails ⟨.ok ["a.ttf", "b.ttf"],
        fun name => if name = "fonts/a.ttf" then .ok [1] else .ok [2],
        fun data => if data = [1] then .ok ⟨data⟩ else .error "bad font"⟩
    ∧ ∃ e, (randFontFamily ⟨.ok ["a.ttf", "b.ttf"],
          fun name => if name = "fonts/a.ttf" then .ok [1] else .ok [2],
          fun data => if data = [1] then .ok ⟨data⟩ else .error "bad font"⟩
          ⟨⟨fun _ => 0, 0⟩, ⟨fun _ => 0, 0⟩, ⟨fun k => .ok k, 0⟩, FontState.zero⟩).1 = .err e
        ∧ (randFontFamily ⟨.ok ["a.ttf", "b.ttf"],
          fun name => if name = "fonts/a.ttf" then .ok [1] else .ok [2],
          fun data => if data = [1] then .ok ⟨data⟩ else .error "bad font"⟩
          ⟨⟨fun _ => 0, 0⟩, ⟨fun _ => 0, 0⟩, ⟨fun k => .ok k, 0⟩,
            FontState.zero⟩).2.fonts.fontFamilyNames = ["a.ttf"] :=
  ⟨rfl,
   Or.inr ⟨["a.ttf", "b.ttf"], rfl, "b.ttf", by decide,
     Or.inr ⟨[2], "bad font", rfl, rfl⟩⟩,
   (randFontFamily_failed_forever
      ⟨.ok ["a.ttf", "b.ttf"],
        fun name => if name = "fonts/a.ttf" then .ok [1] else .ok [2],
        fun data => if data = [1] then .ok ⟨data⟩ else .error "bad font"⟩
      ⟨⟨fun _ => 0, 0⟩, ⟨fun _ => 0, 0⟩, ⟨fun k => .ok k, 0⟩, FontState.zero⟩ rfl
      (Or.inr ⟨["a.ttf", "b.ttf"], rfl, "b.ttf", by decide,
        Or.inr ⟨[2], "bad font", rfl, rfl⟩⟩)).imp
     (fun _ h => ⟨h.1, by decide⟩)⟩

theorem intn_pos (n : Int) (w : World) (h : 0 < n) :
    intn n w = (.ok ((w.r.draws w.r.pos : Int) % n),
      { w with r := { w.r with pos := w.r.pos + 1 } }) := by
  simp [intn, Rng.Intn, not_le.mpr h]

theorem intn_nonpos (n : Int) (w : World) (h : n ≤ 0) :
    intn n w = (.panic "invalid argument to Intn", w) := by
  simp [intn, Rng.Intn, h]

theorem int63n_pos (n : Int) (w : World) (h : 0 < n) :
    int63n n w = (.ok ((w.global.draws w.global.pos : Int) % n),
      { w with global := { w.global with pos := w.global.pos + 1 } }) := by
  simp [int63n, Rng.Int63n, not_le.mpr h]

theorem int63n_nonpos (n : Int) (w : World) (h : n ≤ 0) :
    int63n n w = (.panic "invalid argument to Int63n", w) := by
  simp [int63n, Rng.Int63n, h]

/-- The helper `random` returns when its range `[min, max)` is not empty. -/
theorem random_ok (min max : Int) (w : World) (h : min < max) :
    ∃ v w1, random min max w = (.ok v, w1) := by
  unfold random
  simp only [float64, andThen]
  by_cases hmax : max ≤ 0
  · rw [if_pos hmax, int63n_pos _ _ (by omega)]
    exact ⟨_, _, rfl⟩
  · rw [if_neg hmax]
    by_cases hmin : min < 0 ∧ max > 0
    · rw [if_pos hmin]
      simp only [globalInt]
      split
      · rw [int63n_pos _ _ (by omega)]
        exact ⟨_, _, rfl⟩
      · rw [int63n_pos _ _ (by omega)]
        exact ⟨_, _, rfl⟩
    · rw [if_neg hmin, int63n_pos _ _ (by omega)]
      exact ⟨_, _, rfl⟩

/-- The helper `random` panics in `rand.Int63n` when its range is empty
(`max <= min`) and does not straddle zero. -/
theorem random_empty (min max : Int) (w : World) (h : max ≤ min)
    (hs : ¬ (min < 0 ∧ max > 0)) :
    ∃ w1, random min max w = (.panic "invalid argument to Int63n", w1) := by
  unfold random
  simp only [float64, andThen]
  by_cases hmax : max ≤ 0
  · rw [if_pos hmax, int63n_nonpos _ _ (by omega)]
    exact ⟨_, rfl⟩
  · rw [if_neg hmax, if_neg hs, int63n_nonpos _ _ (by omega)]
    exact ⟨_, rfl⟩

end captchautil

namespace captchautil

/-- C8: the channel value |min(c - d, 255)| of randomDeepColor is not
clamped into [0, 255]. With the generator r drawing 0, 0, 254 (so that
randomColor is (0, 0, 255, 255) and the offset is 30 + 254 = 284) the red and
green values are 284, which no 8-bit channel holds, so the conversion to
uint8 is left to the implementation. For every channel c and offset d in
[30, 284] the value lies in [0, 284], and it is at most 255 exactly when
d - c <= 255. -/
theorem randomDeepColor_exceeds_255 :
    deepChannel 0 284 = 284
    ∧ (randomColor ⟨⟨fun k => if k = 2 then 254 else 0, 0⟩, ⟨fun _ => 0, 0⟩,
          ⟨fun k => .ok k, 0⟩, FontState.zero⟩).1 = .ok ⟨0, 0, 255, 255⟩
    ∧ (randomDeepValues ⟨⟨fun k => if k = 2 then 254 else 0, 0⟩, ⟨fun _ => 0, 0⟩,
          ⟨fun k => .ok k, 0⟩, FontState.zero⟩).1 = .ok (284, 284, 29)
    ∧ ¬ ((284 : Int) ≤ 255)
    ∧ (∀ impl : Int → Fin 256, uint8OfFloat impl 284 = impl 284)
    ∧ (∀ (c : Fin 256) (d : Int), 30 ≤ d → d ≤ 284 →
        0 ≤ deepChannel c d ∧ deepChannel c d ≤ 284
        ∧ (deepChannel c d ≤ 255 ↔ d - (c.val : Int) ≤ 255)) := by
  refine ⟨by decide, by decide, by decide, by decide, fun impl => rfl, ?_⟩
  intro c d h30 h284
  have hc := c.isLt
  unfold deepChannel
  have hmin : min ((c.val : Int) - d) 255 = (c.val : Int) - d := min_eq_left (by omega)
  rw [hmin]
  refine ⟨abs_nonneg _, ?_, ?_⟩
  · rw [abs_le]; constructor <;> omega
  · rw [abs_le]
    constructor
    · rintro ⟨h1, _⟩; omega
    · intro h; constructor <;> omega

/-- All the random draws of `Curve` succeed on a canvas of height at least 4
whose height differs from half its width. -/
theorem curveParams_ok (img : Image) (w : World) (hW : 1 ≤ img.width) (hH : 4 ≤ img.height)
    (hne : img.height ≠ img.width.tdiv 2) :
    ∃ p w1, curveParams img w = (.ok p, w1) := by
  have h2 : img.height.tdiv 2 = img.height / 2 := Int.tdiv_eq_ediv (by omega) (by decide)
  have h4 : img.height.tdiv 4 = img.height / 4 := Int.tdiv_eq_ediv (by omega) (by decide)
  have hn4 : (-img.height).tdiv 4 = -(img.height / 4) := by rw [Int.neg_tdiv, h4]
  have hw2 : img.width.tdiv 2 = img.width / 2 := Int.tdiv_eq_ediv (by omega) (by decide)
  have hw5 : (4 * img.width).tdiv 5 = (4 * img.width) / 5 :=
    Int.tdiv_eq_ediv (by omega) (by decide)
  rw [hw2] at hne
  unfold curveParams
  rw [h2, h4, hn4, hw2, hw5, intn_pos _ _ (by omega)]
  simp only [andThen]
  obtain ⟨b, w2, hb⟩ := random_ok (-(img.height / 4)) (img.height / 4)
    { w with r := { w.r with pos := w.r.pos + 1 } } (by omega)
  rw [hb]
  simp only
  obtain ⟨f, w3, hf⟩ := random_ok (-(img.height / 4)) (img.height / 4) w2 (by omega)
  rw [hf]
  simp only
  have ht : ∃ t w4, (if img.height > img.width / 2
           then random (img.width / 2) img.height w3
           else random img.height (img.width / 2) w3) = (.ok t, w4) := by
    split
    · exact random_ok _ _ _ (by omega)
    · exact random_ok _ _ _ (by omega)
  obtain ⟨t, w4, ht⟩ := ht
  rw [ht]
  simp only
  obtain ⟨e, w5, he⟩ := random_ok ((4 * img.width) / 5) img.width w4 (by omega)
  rw [he]
  simp only
  rw [intn_pos _ _ (by decide)]
  simp only
  rw [intn_pos _ _ (by decide)]
  simp only
  rw [intn_pos _ _ (by decide)]
  exact ⟨_, _, rfl⟩

theorem curveStroke_rect (px y : Int) (c : RGBA) :
    ∀ (k : Nat) (p : NRGBAImage), (curveStroke px y c k p).rect = p.rect := by
  intro k
  induction k with
  | zero => intro p; rfl
  | succ k ih => intro p; rw [curveStroke, ih, Set_rect]

theorem forRange_rect (body : Int → NRGBAImage → NRGBAImage)
    (hbody : ∀ i p, (body i p).rect = p.rect) :
    ∀ (k : Nat) (i : Int) (p : NRGBAImage), (forRange body k i p).rect = p.rect := by
  intro k
  induction k with
  | zero => intro i p; rfl
  | succ k ih => intro i p; rw [forRange, ih, hbody]

/-- C9: Curve does not complete for every canvas with W, H >= 1. On a
160 x 80 canvas the period range [min(H, W/2), max(H, W/2)) = [80, 80) is
empty and rand.Int63n(0) panics; on a canvas of height 1 the amplitude bound
H/2 is 0 and r.Intn(0) panics; on a canvas of height 2 the offset range
[-H/4, H/4) = [0, 0) is empty and rand.Int63n(0) panics. This holds for every
state of the random sources, every background and every dpi. On a canvas with
W >= 1, H >= 4 and H different from W/2 every draw succeeds, Curve returns
and the canvas keeps its width, height and bounds. -/
theorem Curve_panics (curveY : CurveParams → Image → Int → Option Int) (dpi : Int)
    (bg : RGBA) (w : World) :
    (Curve curveY (newImage 160 80 dpi bg) w).1 = .panic "invalid argument to Int63n"
    ∧ (Curve curveY (newImage 1 1 dpi bg) w).1 = .panic "invalid argument to Intn"
    ∧ (Curve curveY (newImage 2 2 dpi bg) w).1 = .panic "invalid argument to Int63n"
    ∧ (∀ img : Image, 1 ≤ img.width → 4 ≤ img.height → img.height ≠ img.width.tdiv 2 →
        ∃ out w1, Curve curveY img w = (.ok out, w1) ∧ out.width = img.width
          ∧ out.height = img.height ∧ out.nrgba.rect = img.nrgba.rect) := by
  refine ⟨?_, ?_, ?_, ?_⟩
  · have h2 : (80 : Int).tdiv 2 = 40 := rfl
    have h4 : (80 : Int).tdiv 4 = 20 := rfl
    have hn4 : (-80 : Int).tdiv 4 = -20 := rfl
    have hw2 : (160 : Int).tdiv 2 = 80 := rfl
    simp only [Curve, curveParams, newImage, h2, h4, hn4, hw2]
    rw [intn_pos _ _ (by decide)]
    simp only [andThen]
    obtain ⟨b, w2, hb⟩ := random_ok (-20) 20
      { w with r := { w.r with pos := w.r.pos + 1 } } (by decide)
    rw [hb]
    simp only
    obtain ⟨f, w3, hf⟩ := random_ok (-20) 20 w2 (by decide)
    rw [hf]
    simp only
    rw [if_neg (by decide)]
    obtain ⟨w4, ht⟩ := random_empty 80 80 w3 (by decide) (by decide)
    rw [ht]
  · have h2 : (1 : Int).tdiv 2 = 0 := rfl
    simp only [Curve, curveParams, newImage, h2]
    rw [intn_nonpos _ _ (by decide)]
    simp only [andThen]
  · have h2 : (2 : Int).tdiv 2 = 1 := rfl
    have h4 : (2 : Int).tdiv 4 = 0 := rfl
    have hn4 : (-2 : Int).tdiv 4 = 0 := rfl
    simp only [Curve, curveParams, newImage, h2, h4, hn4]
    rw [intn_pos _ _ (by decide)]
    simp only [andThen]
    obtain ⟨w2, hb⟩ := random_empty 0 0
      { w with r := { w.r with pos := w.r.pos + 1 } } (by decide) (by decide)
    rw [hb]
  · intro img hW hH hne
    obtain ⟨p, w1, hp⟩ := curveParams_ok img w hW hH hne
    refine ⟨⟨img.width, img.height, img.dpi, forRange (fun px im =>
        match curveY p img px with
        | none => im
        | some y => curveStroke px y p.c (img.height.tdiv 5).toNat im)
      p.endX.toNat 0 img.nrgba⟩, w1, ?_, rfl, rfl, ?_⟩
    · simp only [Curve, hp, andThen]
    · apply forRange_rect
      intro i q
      split
      · rfl
      · exact curveStroke_rect _ _ _ _ _

end captchautil

namespace captchautil

theorem randomColor_ok (w : World) : ∃ c w1, randomColor w = (.ok c, w1) := by
  unfold randomColor
  rw [intn_pos _ _ (by decide)]
  simp only [andThen]
  rw [intn_pos _ _ (by decide)]
  exact ⟨_, _, rfl⟩

/-- One iteration of the loop of `Noise` succeeds when all three bounds are
positive; it keeps the dimensions and changes at most two pixels. -/
theorem noiseBody_ok (maxSize : Int) (img : Image) (w : World)
    (hW : 0 < img.width) (hH : 0 < img.height) (hM : 0 < maxSize) :
    ∃ out w1, noiseBody maxSize img w = (.ok out, w1)
      ∧ out.width = img.width ∧ out.height = img.height ∧ out.dpi = img.dpi
      ∧ out.nrgba.rect = img.nrgba.rect
      ∧ ∃ touched : List (Int × Int), touched.length ≤ 2
          ∧ ∀ x y, (x, y) ∉ touched → out.nrgba.pix x y = img.nrgba.pix x y := by
  unfold noiseBody
  rw [intn_pos _ _ hW]
  simp only [andThen]
  rw [intn_pos _ _ hH]
  simp only
  obtain ⟨c1, w3, hc1⟩ := randomColor_ok
    { w with r := { pos := w.r.pos + 1 + 1, draws := w.r.draws } }
  rw [hc1]
  simp only
  rw [intn_pos _ _ hM]
  simp only
  split
  · obtain ⟨c2, w5, hc2⟩ := randomColor_ok
      { w3 with r := { w3.r with pos := w3.r.pos + 1 } }
    rw [hc2]
    refine ⟨_, _, rfl, rfl, rfl, rfl, ?_, ?_⟩
    · simp only [Set_rect]
    · refine ⟨[(↑(w.r.draws w.r.pos) % img.width,
          ↑(w.r.draws (w.r.pos + 1)) % img.height),
          (↑(w.r.draws w.r.pos) % img.width + 1,
          ↑(w.r.draws (w.r.pos + 1)) % img.height + 1)], by simp, ?_⟩
      intro x y hxy
      simp only [List.mem_cons, Prod.mk.injEq, List.mem_singleton, not_or, List.not_mem_nil,
        or_false] at hxy
      rw [Set_pix, Set_pix, if_neg (fun h => hxy.2 h.1), if_neg (fun h => hxy.1 h.1)]
  · refine ⟨_, _, rfl, rfl, rfl, rfl, ?_, ?_⟩
    · simp only [Set_rect]
    · refine ⟨[(↑(w.r.draws w.r.pos) % img.width,
          ↑(w.r.draws (w.r.pos + 1)) % img.height)], by simp, ?_⟩
      intro x y hxy
      simp only [List.mem_singleton, Prod.mk.injEq] at hxy
      rw [Set_pix, if_neg (fun h => hxy h.1)]

/-- The loop of `Noise` runs its `k` iterations, keeps the dimensions and
changes at most two pixels per iteration. -/
theorem noiseLoop_ok (maxSize : Int) (k : Nat) : ∀ (img : Image) (done : Nat) (w : World),
    0 < img.width → 0 < img.height → (0 < k → 0 < maxSize) →
    ∃ out w1, noiseLoop maxSize k img done w = (.ok (out, done + k), w1)
      ∧ out.width = img.width ∧ out.height = img.height ∧ out.dpi = img.dpi
      ∧ out.nrgba.rect = img.nrgba.rect
      ∧ ∃ touched : List (Int × Int), touched.length ≤ 2 * k
          ∧ ∀ x y, (x, y) ∉ touched → out.nrgba.pix x y = img.nrgba.pix x y := by
  induction k with
  | zero =>
    intro img done w _ _ _
    exact ⟨img, w, rfl, rfl, rfl, rfl, rfl, [], by simp, fun _ _ _ => rfl⟩
  | succ k ih =>
    intro img done w hW hH hM
    have hM0 : 0 < maxSize := hM (Nat.succ_pos k)
    obtain ⟨img1, w1, hbody, hw1, hh1, hd1, hr1, t1, ht1, hp1⟩ :=
      noiseBody_ok maxSize img w hW hH hM0
    obtain ⟨out, w2, hloop, hw2, hh2, hd2, hr2, t2, ht2, hp2⟩ :=
      ih img1 (done + 1) w1 (by rw [hw1]; exact hW) (by rw [hh1]; exact hH) (fun _ => hM0)
    refine ⟨out, w2, ?_, hw2.trans hw1, hh2.trans hh1, hd2.trans hd1, hr2.trans hr1,
      t1 ++ t2, ?_, ?_⟩
    · simp only [noiseLoop, hbody, andThen]
      rw [hloop]
      have : done + 1 + k = done + (k + 1) := by omega
      rw [this]
    · rw [List.length_append]; omega
    · intro x y hxy
      rw [List.mem_append, not_or] at hxy
      rw [hp2 x y hxy.2, hp1 x y hxy.1]

/-- The function `randomColor` always returns, and returns the colour of the
specification. -/
theorem randomColor_eq (w : World) :
    randomColor w = (.ok (specRandomColor w.r).1, { w with r := (specRandomColor w.r).2 }) := by
  unfold randomColor
  rw [intn_pos _ _ (by decide)]
  simp only [andThen]
  rw [intn_pos _ _ (by decide)]
  simp only [specRandomColor, specDraw]
  refine Prod.ext ?_ rfl
  simp only
  have h255 : toUint8 255 = (255 : Fin 256) := by decide
  have hblue : ∀ a b : Int,
      (if (if a + b ≤ 400 then 400 - b - a else 0) > 255 then 255
        else (if a + b ≤ 400 then 400 - b - a else 0))
      = (if a + b ≤ 400 then min (400 - a - b) 255 else 0) := by
    intro a b
    split_ifs <;> omega
  rw [h255, hblue]

/-- One iteration of the loop of `Noise` is one step of the specification,
when the three bounds are positive. -/
theorem noiseBody_eq (maxSize : Int) (img : Image) (w : World)
    (hW : 0 < img.width) (hH : 0 < img.height) (hM : 0 < maxSize) :
    noiseBody maxSize img w
      = (.ok (specNoiseStep maxSize (img, w.r)).1,
          { w with r := (specNoiseStep maxSize (img, w.r)).2 }) := by
  unfold noiseBody
  rw [intn_pos _ _ hW]
  simp only [andThen]
  rw [intn_pos _ _ hH]
  simp only
  rw [randomColor_eq]
  simp only
  rw [intn_pos _ _ hM]
  simp only
  have hmod : ∀ v : Int, 0 ≤ v → v.tmod 3 = v % 3 := fun v hv =>
    Int.tmod_eq_emod hv (by decide)
  rw [hmod _ (Int.emod_nonneg _ (by omega))]
  simp only [specNoiseStep, specDraw]
  split
  · rw [randomColor_eq]
  · rfl

theorem specNoiseStep_dims (count : Int) (s : Image × Rng) :
    (specNoiseStep count s).1.width = s.1.width
    ∧ (specNoiseStep count s).1.height = s.1.height := by
  unfold specNoiseStep
  simp only
  split <;> exact ⟨rfl, rfl⟩

/-- The loop of `Noise` with `k` iterations left is `k` steps of the
specification. -/
theorem noiseLoop_eq (maxSize : Int) (k : Nat) : ∀ (img : Image) (done : Nat) (w : World),
    0 < img.width → 0 < img.height → (0 < k → 0 < maxSize) →
    noiseLoop maxSize k img done w
      = (.ok (((specNoiseStep maxSize)^[k] (img, w.r)).1, done + k),
          { w with r := ((specNoiseStep maxSize)^[k] (img, w.r)).2 }) := by
  induction k with
  | zero => intro img done w _ _ _; rfl
  | succ k ih =>
    intro img done w hW hH hM
    have hM0 : 0 < maxSize := hM (Nat.succ_pos k)
    have hd := specNoiseStep_dims maxSize (img, w.r)
    rw [noiseLoop, noiseBody_eq maxSize img w hW hH hM0]
    simp only [andThen]
    rw [ih _ _ _ (by rw [hd.1]; exact hW) (by rw [hd.2]; exact hH) (fun _ => hM0)]
    rw [Function.iterate_succ_apply]
    have : done + 1 + k = done + (k + 1) := by omega
    rw [this]

/-- A step of the specification consumes five or seven draws and leaves the
stream of the generator as it is. -/
theorem specNoiseStep_draws (count : Int) (s : Image × Rng) :
    (specNoiseStep count s).2.draws = s.2.draws
    ∧ ((specNoiseStep count s).2.pos = s.2.pos + 5
        ∨ (specNoiseStep count s).2.pos = s.2.pos + 7) := by
  unfold specNoiseStep
  simp only [specRandomColor, specDraw]
  split
  · exact ⟨rfl, Or.inr rfl⟩
  · exact ⟨rfl, Or.inl rfl⟩

theorem specNoise_draws (count : Int) (k : Nat) : ∀ s : Image × Rng,
    ((specNoiseStep count)^[k] s).2.draws = s.2.draws
    ∧ s.2.pos + 5 * k ≤ ((specNoiseStep count)^[k] s).2.pos
    ∧ ((specNoiseStep count)^[k] s).2.pos ≤ s.2.pos + 7 * k := by
  induction k with
  | zero => intro s; exact ⟨rfl, by simp, by simp⟩
  | succ k ih =>
    intro s
    rw [Function.iterate_succ_apply]
    obtain ⟨hd, h5, h7⟩ := ih (specNoiseStep count s)
    obtain ⟨hd1, hp⟩ := specNoiseStep_draws count s
    refine ⟨hd.trans hd1, ?_, ?_⟩ <;> rcases hp with hp | hp <;> omega

/-- A step of the specification on a canvas paints the pixel it picks: that
pixel lies on the canvas and holds the first colour drawn. -/
theorem specNoiseStep_paints (count : Int) (img : Image) (g : Rng)
    (hW : 1 ≤ img.width) (hH : 1 ≤ img.height)
    (hrect : img.nrgba.rect = ⟨0, 0, img.width, img.height⟩) :
    0 ≤ (specDraw img.width g).1 ∧ (specDraw img.width g).1 < img.width
    ∧ 0 ≤ (specDraw img.height (specDraw img.width g).2).1
    ∧ (specDraw img.height (specDraw img.width g).2).1 < img.height
    ∧ (specNoiseStep count (img, g)).1.nrgba.At (specDraw img.width g).1
          (specDraw img.height (specDraw img.width g).2).1
        = nrgbaModel (specRandomColor (specDraw img.height (specDraw img.width g).2).2).1 := by
  have hx0 : 0 ≤ (specDraw img.width g).1 := Int.emod_nonneg _ (by omega)
  have hx1 : (specDraw img.width g).1 < img.width := Int.emod_lt_of_pos _ (by omega)
  have hy0 : 0 ≤ (specDraw img.height (specDraw img.width g).2).1 :=
    Int.emod_nonneg _ (by omega)
  have hy1 : (specDraw img.height (specDraw img.width g).2).1 < img.height :=
    Int.emod_lt_of_pos _ (by omega)
  refine ⟨hx0, hx1, hy0, hy1, ?_⟩
  have hin : img.nrgba.rect.contains (specDraw img.width g).1
      (specDraw img.height (specDraw img.width g).2).1 = true := by
    rw [hrect]; exact (contains_canvas _ _ _ _).mpr ⟨hx0, hx1, hy0, hy1⟩
  unfold specNoiseStep
  simp only
  split
  · rw [At_of_contains _ _ _ (by rw [Set_rect, Set_rect]; exact hin), Set_pix, Set_pix]
    rw [if_neg (by intro h; have := h.1.1; omega), if_pos ⟨⟨rfl, rfl⟩, hin⟩]
  · rw [At_of_contains _ _ _ (by rw [Set_rect]; exact hin), Set_pix, if_pos ⟨⟨rfl, rfl⟩, hin⟩]

/-- C10: for every canvas with W, H >= 1, every complexity and every state
of the random source, Noise returns success and is exactly count =
(W*H)/density iterations of the step of the specification (pick a pixel,
paint it a random colour, and for size % 3 == 0 paint its diagonal neighbour
too), with density 28 for Low, 18 for Medium and 8 for High, so count(Low) <=
count(Medium) <= count(High); no draw has a non-positive bound; the run
consumes between 5*count and 7*count draws of the generator r and touches no
other state; each step paints the pixel it picks; at most 2*count pixels of
the canvas change, and the canvas keeps its width, height and bounds. -/
theorem Noise_ok (complex : Int) (img : Image) (w : World)
    (hW : 1 ≤ img.width) (hH : 1 ≤ img.height) :
    noiseDensity ComplexityLow = 28 ∧ noiseDensity ComplexityMedium = 18
    ∧ noiseDensity ComplexityHigh = 8
    ∧ (img.width * img.height) / noiseDensity ComplexityLow
        ≤ (img.width * img.height) / noiseDensity ComplexityMedium
    ∧ (img.width * img.height) / noiseDensity ComplexityMedium
        ≤ (img.width * img.height) / noiseDensity ComplexityHigh
    ∧ noiseRun complex img w
        = (.ok ((specNoise (noiseDensity complex) img w.r).1,
                ((img.width * img.height) / noiseDensity complex).toNat),
            { w with r := (specNoise (noiseDensity complex) img w.r).2 })
    ∧ Noise complex img w
        = (.ok (specNoise (noiseDensity complex) img w.r).1,
            { w with r := (specNoise (noiseDensity complex) img w.r).2 })
    ∧ (specNoise (noiseDensity complex) img w.r).1.width = img.width
    ∧ (specNoise (noiseDensity complex) img w.r).1.height = img.height
    ∧ (specNoise (noiseDensity complex) img w.r).1.dpi = img.dpi
    ∧ (specNoise (noiseDensity complex) img w.r).1.nrgba.rect = img.nrgba.rect
    ∧ (changedPixels img.nrgba (specNoise (noiseDensity complex) img w.r).1.nrgba).card
        ≤ 2 * ((img.width * img.height) / noiseDensity complex).toNat
    ∧ (specNoise (noiseDensity complex) img w.r).2.draws = w.r.draws
    ∧ w.r.pos + 5 * ((img.width * img.height) / noiseDensity complex).toNat
        ≤ (specNoise (noiseDensity complex) img w.r).2.pos
    ∧ (specNoise (noiseDensity complex) img w.r).2.pos
        ≤ w.r.pos + 7 * ((img.width * img.height) / noiseDensity complex).toNat
    ∧ (∀ (canvas : Image) (g : Rng), 1 ≤ canvas.width → 1 ≤ canvas.height →
        canvas.nrgba.rect = ⟨0, 0, canvas.width, canvas.height⟩ →
        0 ≤ (specDraw canvas.width g).1 ∧ (specDraw canvas.width g).1 < canvas.width
        ∧ 0 ≤ (specDraw canvas.height (specDraw canvas.width g).2).1
        ∧ (specDraw canvas.height (specDraw canvas.width g).2).1 < canvas.height
        ∧ (specNoiseStep ((img.width * img.height) / noiseDensity complex)
              (canvas, g)).1.nrgba.At (specDraw canvas.width g).1
              (specDraw canvas.height (specDraw canvas.width g).2).1
            = nrgbaModel
                (specRandomColor (specDraw canvas.height (specDraw canvas.width g).2).2).1) := by
  have hprod : 0 ≤ img.width * img.height := by positivity
  have hdens : 0 ≤ noiseDensity complex := by
    unfold noiseDensity
    split_ifs <;> decide
  have hL : noiseDensity ComplexityLow = 28 := by decide
  have hMd : noiseDensity ComplexityMedium = 18 := by decide
  have hHi : noiseDensity ComplexityHigh = 8 := by decide
  have hmax : (img.height * img.width).tdiv (noiseDensity complex)
      = (img.width * img.height) / noiseDensity complex := by
    rw [mul_comm, Int.tdiv_eq_ediv hprod hdens]
  have hrun : noiseRun complex img w
      = (.ok ((specNoise (noiseDensity complex) img w.r).1,
              ((img.width * img.height) / noiseDensity complex).toNat),
          { w with r := (specNoise (noiseDensity complex) img w.r).2 }) := by
    simp only [noiseRun, hmax, specNoise]
    rw [noiseLoop_eq _ _ img 0 w (by omega) (by omega) (by omega), Nat.zero_add]
  obtain ⟨out, w1, hloop, hw1, hh1, hd1, hr1, touched, hlen, hpix⟩ :=
    noiseLoop_ok ((img.width * img.height) / noiseDensity complex)
      ((img.width * img.height) / noiseDensity complex).toNat img 0 w
      (by omega) (by omega) (by omega)
  have hout : out = (specNoise (noiseDensity complex) img w.r).1 := by
    have h2 := noiseLoop_eq ((img.width * img.height) / noiseDensity complex)
      ((img.width * img.height) / noiseDensity complex).toNat img 0 w
      (by omega) (by omega) (by omega)
    rw [hloop] at h2
    simp only [Prod.mk.injEq, Res.ok.injEq] at h2
    exact h2.1.1
  subst hout
  obtain ⟨hdr, h5, h7⟩ := specNoise_draws ((img.width * img.height) / noiseDensity complex)
    ((img.width * img.height) / noiseDensity complex).toNat (img, w.r)
  refine ⟨hL, hMd, hHi, ?_, ?_, hrun, ?_, hw1, hh1, hd1, hr1, ?_, hdr, h5, h7, ?_⟩
  · rw [hL, hMd]; omega
  · rw [hMd, hHi]; omega
  · simp only [Noise, hrun, andThen]
  · calc (changedPixels img.nrgba (specNoise (noiseDensity complex) img w.r).1.nrgba).card
          ≤ touched.toFinset.card := by
            apply Finset.card_le_card
            intro p hp
            simp only [changedPixels, Finset.mem_filter] at hp
            rw [List.mem_toFinset]
            by_contra hnot
            exact hp.2 (hpix p.1 p.2 hnot)
        _ ≤ touched.length := List.toFinset_card_le touched
        _ ≤ _ := hlen
  · intro canvas g hcW hcH hrect
    exact specNoiseStep_paints _ canvas g hcW hcH hrect

/-- Witness of C10 on a 24 x 8 white canvas at low complexity, with the
generator whose k-th raw value is 7 * k: six iterations, 36 draws, four
pixels changed, among them (11, 2). -/
theorem Noise_ok_witness :
    1 ≤ (newImage 24 8 72 ⟨255, 255, 255, 255⟩).width
    ∧ 1 ≤ (newImage 24 8 72 ⟨255, 255, 255, 255⟩).height
    ∧ (noiseRun ComplexityLow (newImage 24 8 72 ⟨255, 255, 255, 255⟩)
        ⟨⟨fun k => 7 * k, 0⟩, ⟨fun _ => 0, 0⟩, ⟨fun k => .ok k, 0⟩, FontState.zero⟩).1.value.map
          (fun p => p.2) = some 6
    ∧ (Noise ComplexityLow (newImage 24 8 72 ⟨255, 255, 255, 255⟩)
        ⟨⟨fun k => 7 * k, 0⟩, ⟨fun _ => 0, 0⟩, ⟨fun k => .ok k, 0⟩, FontState.zero⟩).2.r.pos = 36
    ∧ (Noise ComplexityLow (newImage 24 8 72 ⟨255, 255, 255, 255⟩)
        ⟨⟨fun k => 7 * k, 0⟩, ⟨fun _ => 0, 0⟩, ⟨fun k => .ok k, 0⟩, FontState.zero⟩).1.value.map
          (fun out => out.nrgba.At 11 2) = some ⟨217, 224, 0, 255⟩
    ∧ (changedPixels (newImage 24 8 72 ⟨255, 255, 255, 255⟩).nrgba
        (specNoise (noiseDensity ComplexityLow) (newImage 24 8 72 ⟨255, 255, 255, 255⟩)
          ⟨fun k => 7 * k, 0⟩).1.nrgba).card ≤ 2 * 6 :=
  ⟨by decide, by decide, by decide, by decide, by decide,
   (Noise_ok ComplexityLow (newImage 24 8 72 ⟨255, 255, 255, 255⟩)
      ⟨⟨fun k => 7 * k, 0⟩, ⟨fun _ => 0, 0⟩, ⟨fun k => .ok k, 0⟩, FontState.zero⟩
      (by decide) (by decide)).2.2.2.2.2.2.2.2.2.2.2.1⟩

end captchautil
